import Mathlib

/-!
Verification development for the Smol Agent turn-execution engine
(`chat_manager.py`).  Strings are modelled as `List Char`; the Python
regular expressions compiled in `_update_dynamic_patterns` are modelled by
small backtracking parsers whose semantics mirror Python `re` (leftmost
match, alternation tried in order, greedy / lazy stars with backtracking,
`re.DOTALL` and ASCII `re.IGNORECASE`).
-/

deriving instance DecidableEq for Except

namespace SmolAgent

/-! ## Character utilities -/

/-- The literal open-brace character. -/
def lbrace : Char := Char.ofNat 123

/-- The literal close-brace character. -/
def rbrace : Char := Char.ofNat 125

/-- ASCII lower-casing, modelling `re.IGNORECASE` folding on the ASCII
letters that occur in the compiled patterns. -/
def lowerAscii (c : Char) : Char :=
  if 'A' ≤ c ∧ c ≤ 'Z' then Char.ofNat (c.toNat + 32) else c

/-- Case-insensitive character comparison. -/
def eqCI (a b : Char) : Bool := lowerAscii a == lowerAscii b

/-- Python's `\s` class (ASCII part): space, tab, newline, carriage
return, form feed, vertical tab. -/
def pySpace (c : Char) : Bool :=
  c == ' ' || c == '\t' || c == '\n' || c == '\r' ||
    c == Char.ofNat 12 || c == Char.ofNat 11

/-- Python's `\d` class (ASCII part). -/
def isDigitCh (c : Char) : Bool := '0' ≤ c && c ≤ '9'

/-- ASCII letter test. -/
def isAlphaCh (c : Char) : Bool := ('a' ≤ c && c ≤ 'z') || ('A' ≤ c && c ≤ 'Z')

/-- Python's `\w` class (ASCII part): letters, digits, underscore. -/
def isWordCh (c : Char) : Bool := isAlphaCh c || isDigitCh c || c == '_'

/-- The class `[\w\.\-]` used for filenames in the compiled patterns. -/
def isFnameCh (c : Char) : Bool := isWordCh c || c == '.' || c == '-'

/-- The class matched by a literal `s` under `re.IGNORECASE` (the patterns
contain `{s*` where `{\s*` was clearly intended; we model the code as
written). -/
def isSCh (c : Char) : Bool := eqCI c 's'

/-! ## Backtracking parsers over character lists

A parser takes the input and returns the length of the match chosen by
Python's backtracking engine at the start of the input, or `none`.
Alternation and star backtracking are resolved internally, so a parser is
written in continuation style: every star receives the whole rest of the
pattern as its continuation. -/

/-- Parser: number of characters consumed by the regex fragment, if it
matches at the head of the input. -/
abbrev P := List Char → Option Nat

/-- A literal character matched exactly (used for the non-letter literals
`{`, `}`, `:`, `-`, on which `re.IGNORECASE` has no effect). -/
def pchE (c : Char) : P := fun s =>
  match s with
  | [] => none
  | x :: _ => if x == c then some 1 else none

/-- A literal word matched case-insensitively (a sequence of literal
characters in an `re.IGNORECASE` pattern). -/
def pword : List Char → List Char → Option Nat
  | [], _ => some 0
  | _ :: _, [] => none
  | c :: w, x :: s => if eqCI x c then (pword w s).map (· + 1) else none

/-- Sequencing where the first part is deterministic (single possible
match), so no backtracking crosses the boundary. -/
def pthen (p q : P) : P := fun s =>
  match p s with
  | none => none
  | some n => (q (s.drop n)).map (fun m => n + m)

/-- Ordered alternation: the first alternative that matches wins, as in
Python regex alternation. -/
def porelse (p q : P) : P := fun s =>
  match p s with
  | some n => some n
  | none => q s

/-- Backtracking driver for a greedy character-class star: try consuming
`k` characters first (longest first), then fewer. -/
def tryFrom (next : P) (s : List Char) : Nat → Option Nat
  | 0 => next s
  | k + 1 =>
    match next (s.drop (k + 1)) with
    | some m => some (k + 1 + m)
    | none => tryFrom next s k

/-- Greedy `cls*` followed by the rest of the pattern, with Python
backtracking (longest consumption first). -/
def pstarG (cls : Char → Bool) (next : P) : P := fun s =>
  tryFrom next s (s.takeWhile cls).length

/-- Greedy `cls+` followed by the rest of the pattern. -/
def pplusG (cls : Char → Bool) (next : P) : P := fun s =>
  match s with
  | [] => none
  | x :: xs => if cls x then ((pstarG cls next) xs).map (· + 1) else none

/-- The tail `.*?\}` under `re.DOTALL` in final position: the lazy star
stops at the first close brace, which is consumed. -/
def pScanClose : List Char → Option Nat
  | [] => none
  | c :: cs => if c == rbrace then some 1 else (pScanClose cs).map (· + 1)

/-! ## The union pattern `all_recognized_commands_pattern`

Source (f-string braces expanded, `NAME` the escaped agent name):
  \{s*thinking\s*:.*?\}
  {s*NAME\s*-\s*says\s*:.*?\}
  {s*self\s*-\s*prompt\s*-\s*from\s*-\s*NAME\s*:.*?\}
  {s*read\s*-\s*file\s*-\s*[\w\.\-]+\s*\}
  {s*push\s*-\s*update\s*-\s*[\w\.\-]+\s*:\s*.*?\}
  {s*[\w\.\-]+\s*-\s*entry\s*-\s*\d+\s*-\s*delete\s*\}
  {s*create\s*-\s*file\s*-\s*[\w\.\-]+\s*\}
  {s*delete\s*-\s*file\s*-\s*[\w\.\-]+\s*\}
  {s*ping-user\s*\}
compiled with `re.DOTALL | re.IGNORECASE`. -/

/-- The fragment `\s*` followed by the rest of the pattern. -/
def wsG (next : P) : P := pstarG pySpace next

/-- The fragment `\s*-\s*` followed by the rest of the pattern. -/
def wsDash (next : P) : P := wsG (pthen (pchE '-') (wsG next))

/-- The tail `\s*:.*?\}`. -/
def colonBody : P := wsG (pthen (pchE ':') pScanClose)

/-- The tail `\s*\}`. -/
def wsClose : P := wsG (pchE rbrace)

/-- Alternative `\{s*thinking\s*:.*?\}`. -/
def altThinking : P :=
  pthen (pchE lbrace) (pstarG isSCh (pthen (pword ("thinking".data)) colonBody))

/-- Alternative `{s*NAME\s*-\s*says\s*:.*?\}`. -/
def altSays (nm : List Char) : P :=
  pthen (pchE lbrace)
    (pstarG isSCh (pthen (pword nm) (wsDash (pthen (pword ("says".data)) colonBody))))

/-- Alternative `{s*self\s*-\s*prompt\s*-\s*from\s*-\s*NAME\s*:.*?\}`
(also the pattern `all_self_prompts`, whose group is the whole match). -/
def altSelfPrompt (nm : List Char) : P :=
  pthen (pchE lbrace)
    (pstarG isSCh (pthen (pword ("self".data))
      (wsDash (pthen (pword ("prompt".data))
        (wsDash (pthen (pword ("from".data))
          (wsDash (pthen (pword nm) colonBody))))))))

/-- Alternative `{s*read\s*-\s*file\s*-\s*[\w\.\-]+\s*\}`. -/
def altReadFile : P :=
  pthen (pchE lbrace)
    (pstarG isSCh (pthen (pword ("read".data))
      (wsDash (pthen (pword ("file".data)) (wsDash (pplusG isFnameCh wsClose))))))

/-- Alternative `{s*push\s*-\s*update\s*-\s*[\w\.\-]+\s*:\s*.*?\}`. -/
def altPush : P :=
  pthen (pchE lbrace)
    (pstarG isSCh (pthen (pword ("push".data))
      (wsDash (pthen (pword ("update".data))
        (wsDash (pplusG isFnameCh (wsG (pthen (pchE ':') (pstarG pySpace pScanClose)))))))))

/-- Alternative `{s*[\w\.\-]+\s*-\s*entry\s*-\s*\d+\s*-\s*delete\s*\}`. -/
def altEntryDelete : P :=
  pthen (pchE lbrace)
    (pstarG isSCh (pplusG isFnameCh
      (wsDash (pthen (pword ("entry".data))
        (wsDash (pplusG isDigitCh (wsDash (pthen (pword ("delete".data)) wsClose))))))))

/-- Alternative `{s*create\s*-\s*file\s*-\s*[\w\.\-]+\s*\}`. -/
def altCreateFile : P :=
  pthen (pchE lbrace)
    (pstarG isSCh (pthen (pword ("create".data))
      (wsDash (pthen (pword ("file".data)) (wsDash (pplusG isFnameCh wsClose))))))

/-- Alternative `{s*delete\s*-\s*file\s*-\s*[\w\.\-]+\s*\}`. -/
def altDeleteFile : P :=
  pthen (pchE lbrace)
    (pstarG isSCh (pthen (pword ("delete".data))
      (wsDash (pthen (pword ("file".data)) (wsDash (pplusG isFnameCh wsClose))))))

/-- Alternative `{s*ping-user\s*\}`. -/
def altPingUser : P :=
  pthen (pchE lbrace) (pstarG isSCh (pthen (pword ("ping-user".data)) wsClose))

/-- The full union pattern, alternatives in source order. -/
def unionPat (nm : List Char) : P :=
  porelse altThinking (porelse (altSays nm) (porelse (altSelfPrompt nm)
    (porelse altReadFile (porelse altPush (porelse altEntryDelete
      (porelse altCreateFile (porelse altDeleteFile altPingUser)))))))

/-! ## `findall` and sanitization -/

/-- Python `re.findall` scanning: leftmost matches, non-overlapping; after
a match the scan resumes at its end (advancing one character after an
empty match, which the union pattern never produces).  Fuel-recursive so
that it evaluates by kernel reduction; `fuel ≥ length` always suffices. -/
def findAllFuel (u : P) : Nat → List Char → List (List Char)
  | 0, _ => []
  | _ + 1, [] => []
  | fuel + 1, c :: cs =>
    match u (c :: cs) with
    | some n => ((c :: cs).take n) :: findAllFuel u fuel (cs.drop (n - 1))
    | none => findAllFuel u fuel cs

/-- All matches of a pattern in the input, in order. -/
def findAll (u : P) (s : List Char) : List (List Char) := findAllFuel u s.length s

/-- Sanitization (`_parse_and_validate_response` lines 704-705): extract
every block matching the union grammar and concatenate them. -/
def sanitize (nm : List Char) (s : List Char) : List Char :=
  (findAll (unionPat nm) s).flatten

/-! ## Python string helpers -/

/-- Python `str.strip()` on the right. -/
def rstripSp (l : List Char) : List Char := (l.reverse.dropWhile pySpace).reverse

/-- Python `str.strip()`: remove leading and trailing whitespace. -/
def pyStrip (l : List Char) : List Char := rstripSp (l.dropWhile pySpace)

/-- Python `str.lower()` (ASCII model). -/
def pyLower (l : List Char) : List Char := l.map lowerAscii

/-- Python `str.replace(old, new)`: replace all non-overlapping occurrences
left to right (the code never calls it with an empty `old`). -/
def replaceAllFuel (old new : List Char) : Nat → List Char → List Char
  | 0, s => s
  | _ + 1, [] => []
  | fuel + 1, c :: cs =>
    if old ≠ [] ∧ old.isPrefixOf (c :: cs) then
      new ++ replaceAllFuel old new fuel ((c :: cs).drop old.length)
    else
      c :: replaceAllFuel old new fuel cs

/-- Python `str.replace(old, new)` (entry point). -/
def replaceAll (s old new : List Char) : List Char := replaceAllFuel old new s.length s

/-- Python `', '.join(items)`. -/
def joinSep (sep : List Char) (items : List (List Char)) : List Char :=
  List.intercalate sep items

/-- Decimal digits of a natural number, as `str(n)` produces. -/
def natDigits (n : Nat) : List Char := (Nat.repr n).data

/-- Value of a nonempty decimal digit string, as `int(s)` produces. -/
def digitsToNat (ds : List Char) : Nat :=
  ds.foldl (fun a c => a * 10 + (c.toNat - 48)) 0

/-! ## Prompt templates (defaults from `_get_default_prompt_templates`)
and the placeholders substituted into them. -/

def phFILENAME : List Char := ("__FILENAME__".data)
def phENTRY : List Char := ("__ENTRY_NUMBER__".data)
def phCURRENT : List Char := ("__CURRENT_CONTENT__".data)
def phCONTENT : List Char := ("__CONTENT__".data)
def phNAME : List Char := ("\x7bNAME\x7d".data)
def phALLOWED : List Char := ("__ALLOWED_EXTENSIONS__".data)
def phLIMIT : List Char := ("__LIMIT__".data)
def phFILELIST : List Char := ("__FILE_LIST__".data)

def tplFallbackSelfPrompt : List Char :=
  ("\x7bself-prompt-from-\x7bNAME\x7d: what should I do now?\x7d".data)

def tplReadSuccess : List Char :=
  ("\x7b\x7bNAME\x7d-is-now-reading-the-requested-file\x7d\x7d => \x7b\x7b__FILENAME__[CURRENT-CONTENT: __CONTENT__]\x7d\x7d".data)

def tplReadError : List Char :=
  ("\x7bTerminal: requested-file-error\x7d\x7d => \x7b\x7b__FILENAME__[Could not read file.]\x7d".data)

def tplReadNotFound : List Char :=
  ("\x7bTerminal: requested-file-error\x7d\x7d => \x7b\x7b__FILENAME__[File does not exist.]\x7d".data)

def tplPushSuccess : List Char :=
  ("\x7bTerminal: appended-to-file[__FILENAME__[entry-__ENTRY_NUMBER__]]\x7d".data)

def tplPushOverwrite : List Char :=
  ("\x7bTerminal: file-overwritten[__FILENAME__]\x7d".data)

def tplPushCapacity : List Char :=
  ("\x7bTerminal: file-update-failed-capacity-exceeded\x7d\x7d => \x7b\x7bfile: __FILENAME__\x7d \x7b\x7burgent-action-required: You must delete an old entry to make space for your new update. To delete an entry, use the format \x27\x7b__FILENAME__-entry-[number]-delete\x7d\x27. The current content is: __CURRENT_CONTENT__\x7d\x7d".data)

def tplPushNotFound : List Char :=
  ("\x7bTerminal: file-update-failed\x7d\x7d => \x7b\x7b__FILENAME__[File does not exist. You must create it first using \x27\x7bcreate-file-__FILENAME__\x7d\x27.]\x7d\x7d".data)

def tplDeleteEntrySuccess : List Char :=
  ("\x7bTerminal: deleted-entry[__ENTRY_NUMBER__-from-__FILENAME__]\x7d".data)

def tplDeleteEntryNotFound : List Char :=
  ("\x7bTerminal: delete-failed-entry-not-found[__ENTRY_NUMBER__-from-__FILENAME__]\x7d".data)

def tplDeleteEntryError : List Char :=
  ("\x7bTerminal: file-delete-error\x7d\x7d => \x7b\x7b__FILENAME__[Could not delete entry.]\x7d".data)

def tplCreateSuccess : List Char :=
  ("\x7bTerminal: file-created[__FILENAME__]\x7d".data)

def tplCreateExists : List Char :=
  ("\x7bTerminal: file-creation-failed\x7d => \x7bTerminal: __FILENAME__[File already exists.]\x7d".data)

def tplCreateInvalidExt : List Char :=
  ("\x7bTerminal: file-creation-failed\x7d => \x7bTerminal: __FILENAME__[Invalid file extension. Allowed extensions are: __ALLOWED_EXTENSIONS__]\x7d".data)

def tplCreateError : List Char :=
  ("\x7bTerminal: file-creation-failed\x7d\x7d => \x7b\x7b__FILENAME__[Could not create file.]\x7d".data)

def tplCreateCapacity : List Char :=
  ("\x7bTerminal: file-creation-failed\x7d => \x7bTerminal: __FILENAME__[Cannot create file. File limit of __LIMIT__ reached. You must delete an existing file to make space. Current files: __FILE_LIST__]\x7d\x7d".data)

def tplDeleteFileSuccess : List Char :=
  ("\x7bTerminal: file-deleted[__FILENAME__]\x7d".data)

def tplDeleteFileNotFound : List Char :=
  ("\x7bTerminal: file-deletion-failed\x7d\x7d => \x7b\x7b__FILENAME__[File does not exist.]\x7d".data)

def tplDeleteFileError : List Char :=
  ("\x7bTerminal: file-deletion-failed\x7d\x7d => \x7b\x7b__FILENAME__[Could not delete file.]\x7d\x7d".data)

/-! ## The virtual terminal (sandboxed file store)

The store is an association list from file name to content; disk I/O
failures are not modelled (every read and write succeeds). -/

/-- The file store: name-content pairs, in creation order. -/
abbrev FileStore := List (List Char × List Char)

def fsLookup (fs : FileStore) (name : List Char) : Option (List Char) :=
  (fs.find? (fun e => e.1 == name)).map (·.2)

def fsWrite (fs : FileStore) (name content : List Char) : FileStore :=
  if (fs.find? (fun e => e.1 == name)).isSome then
    fs.map (fun e => if e.1 == name then (e.1, content) else e)
  else
    fs ++ [(name, content)]

def fsRemove (fs : FileStore) (name : List Char) : FileStore :=
  fs.filter (fun e => !(e.1 == name))

/-- The character class of `VALID_FILENAME_PATTERN`'s base name part
`[a-zA-Z0-9_\-]`. -/
def isBaseFnameCh (c : Char) : Bool :=
  isAlphaCh c || isDigitCh c || c == '_' || c == '-'

/-- `VALID_FILENAME_PATTERN.match`: the filename is one or more base-name
characters, a dot, then one or more alphanumerics, and nothing else. -/
def isValidFilename (f : List Char) : Bool :=
  let base := f.takeWhile isBaseFnameCh
  match f.drop base.length with
  | '.' :: ext =>
    decide (base ≠ []) && decide (ext ≠ []) &&
      ext.all (fun c => isAlphaCh c || isDigitCh c)
  | _ => false

/-- `_get_secure_path`: names failing the filename pattern are rejected;
valid names contain no path separators, so `os.path.basename` is the
identity on them. -/
def getSecurePath (f : List Char) : Option (List Char) :=
  if isValidFilename f then some f else none

/-- The extension part of `os.path.splitext` (from the last dot; empty
when there is no dot; validated filenames contain exactly one dot). -/
def splitExtTail (filename : List Char) : List Char :=
  let rev := filename.reverse
  let pre := rev.takeWhile (fun c => !(c == '.'))
  if pre.length < rev.length then '.' :: pre.reverse else []

/-! ## Entry numbering of `.txt` virtual files -/

/-- One match of `\{entry-(\d+)` (case-insensitive) at the head of the
input: the entry number and the total match length. -/
def entryHeadNum (s : List Char) : Option (Nat × Nat) :=
  match pword ("\x7bentry-".data) s with
  | none => none
  | some n =>
    let ds := (s.drop n).takeWhile isDigitCh
    if ds.isEmpty then none else some (digitsToNat ds, n + ds.length)

/-- `re.findall(r"\{entry-(\d+)", content, re.IGNORECASE)` as numbers. -/
def entryNumsFuel : Nat → List Char → List Nat
  | 0, _ => []
  | _ + 1, [] => []
  | fuel + 1, c :: cs =>
    match entryHeadNum (c :: cs) with
    | some r => r.1 :: entryNumsFuel fuel ((c :: cs).drop r.2)
    | none => entryNumsFuel fuel cs

/-- All entry numbers occurring in a `.txt` file content. -/
def entryNums (s : List Char) : List Nat := entryNumsFuel s.length s

/-- `content_for_calc` (line 926): the stripped content, blanked when it
is one of the empty-markers. -/
def contentForCalc (raw : List Char) : List Char :=
  let st := pyStrip raw
  if st = ("[empty]".data) ∨ st = ("(empty)".data) then [] else st

/-- Next entry number (line 928): max existing number + 1, or 1 when the
content holds no entries. -/
def nextEntryNum (calcContent : List Char) : Nat :=
  let nums := entryNums calcContent
  if nums.isEmpty then 1 else nums.foldl max 0 + 1

/-- The new entry string `f"{{entry-{n} : {content}}}"`. -/
def newEntryString (n : Nat) (contentToAdd : List Char) : List Char :=
  ("\x7bentry-".data) ++ natDigits n ++ (" : ".data) ++ contentToAdd ++ [rbrace]

/-- The `.txt` append path of `_handle_push_command` (lines 923-938):
returns the feedback string and the new content (`none` when the
capacity check refuses the write). -/
def pushTxtUpdate (maxChars : Nat) (filename rawContent contentToAdd : List Char) :
    List Char × Option (List Char) :=
  let calcContent := contentForCalc rawContent
  let nextN := nextEntryNum calcContent
  let entry := newEntryString nextN contentToAdd
  if maxChars < calcContent.length + entry.length then
    (replaceAll (replaceAll tplPushCapacity phFILENAME filename) phCURRENT rawContent,
      none)
  else
    (replaceAll (replaceAll tplPushSuccess phFILENAME filename) phENTRY (natDigits nextN),
      some (if calcContent.isEmpty then entry else calcContent ++ '\n' :: entry))

/-- `_handle_push_command`: feedback string and resulting store. -/
def handlePushCommand (maxChars : Nat) (fs : FileStore)
    (filename contentToAdd : List Char) : List Char × FileStore :=
  match getSecurePath filename with
  | none => ([], fs)
  | some fname =>
    match fsLookup fs fname with
    | none => (replaceAll tplPushNotFound phFILENAME filename, fs)
    | some raw =>
      if pyLower (splitExtTail filename) ≠ (".txt".data) then
        (replaceAll tplPushOverwrite phFILENAME filename,
          fsWrite fs fname contentToAdd)
      else
        match pushTxtUpdate maxChars filename raw contentToAdd with
        | (fb, none) => (fb, fs)
        | (fb, some newContent) => (fb, fsWrite fs fname newContent)

/-! ## Entry deletion -/

/-- The pattern `\{entry-N\s*:.*?\}\s*\n?` for a concrete number `N`
(its decimal digits are spliced literally into the pattern): the lazy
body ends at the first close brace, and the trailing `\s*\n?` consumes
the whitespace run after it. -/
def deleteEntryPat (numDigits : List Char) : P :=
  pthen (pword (("\x7bentry-".data) ++ numDigits))
    (pstarG pySpace (pthen (pchE ':')
      (pthen pScanClose (fun s => some (s.takeWhile pySpace).length))))

/-- `re.subn(pat, "", content)`: remove all non-overlapping matches left
to right, counting them. -/
def subnRemoveFuel (pat : P) : Nat → List Char → List Char × Nat
  | 0, s => (s, 0)
  | _ + 1, [] => ([], 0)
  | fuel + 1, c :: cs =>
    match pat (c :: cs) with
    | some n =>
      if n = 0 then
        let r := subnRemoveFuel pat fuel cs
        (c :: r.1, r.2)
      else
        let r := subnRemoveFuel pat fuel ((c :: cs).drop n)
        (r.1, r.2 + 1)
    | none =>
      let r := subnRemoveFuel pat fuel cs
      (c :: r.1, r.2)

def subnRemove (pat : P) (s : List Char) : List Char × Nat :=
  subnRemoveFuel pat s.length s

/-- Core of `_handle_delete_entry_command`: `some newContent` when at
least one entry block was removed (storing the empty marker when the
remainder strips to nothing), else `none`. -/
def deleteEntryCore (entryNumber : Nat) (content : List Char) :
    Option (List Char) :=
  let r := subnRemove (deleteEntryPat (natDigits entryNumber)) content
  if r.2 > 0 then
    some (if pyStrip r.1 = [] then ("[empty]".data) else pyStrip r.1)
  else none

/-- `_handle_delete_entry_command`: feedback string and resulting store
(I/O failures are not modelled, so the error template is never produced). -/
def handleDeleteEntryCommand (fs : FileStore) (filename : List Char)
    (entryNumber : Nat) : List Char × FileStore :=
  let notFound :=
    replaceAll (replaceAll tplDeleteEntryNotFound phENTRY (natDigits entryNumber))
      phFILENAME filename
  match getSecurePath filename with
  | none => (notFound, fs)
  | some fname =>
    match fsLookup fs fname with
    | none => (notFound, fs)
    | some content =>
      match deleteEntryCore entryNumber content with
      | some newContent =>
        (replaceAll (replaceAll tplDeleteEntrySuccess phENTRY (natDigits entryNumber))
            phFILENAME filename,
          fsWrite fs fname newContent)
      | none => (notFound, fs)

/-! ## File creation, deletion, reading -/

/-- `_handle_create_file_command`. -/
def handleCreateFileCommand (allowedExts : List (List Char))
    (maxFiles : Nat) (fs : FileStore) (filename : List Char) :
    List Char × FileStore :=
  match getSecurePath filename with
  | none => ([], fs)
  | some fname =>
    if (allowedExts.find? (fun e => e == pyLower (splitExtTail filename))).isNone then
      (replaceAll (replaceAll tplCreateInvalidExt phFILENAME filename)
          phALLOWED (joinSep (", ".data) allowedExts), fs)
    else if maxFiles ≤ fs.length then
      (replaceAll (replaceAll (replaceAll tplCreateCapacity phFILENAME filename)
          phLIMIT (natDigits maxFiles)) phFILELIST
          (joinSep (", ".data) (fs.map (·.1))), fs)
    else if (fsLookup fs fname).isSome then
      (replaceAll tplCreateExists phFILENAME filename, fs)
    else
      (replaceAll tplCreateSuccess phFILENAME filename,
        fs ++ [(fname, ("[empty]".data))])

/-- `_handle_delete_file_command`. -/
def handleDeleteFileCommand (fs : FileStore) (filename : List Char) :
    List Char × FileStore :=
  match getSecurePath filename with
  | none => (replaceAll tplDeleteFileNotFound phFILENAME filename, fs)
  | some fname =>
    match fsLookup fs fname with
    | none => (replaceAll tplDeleteFileNotFound phFILENAME filename, fs)
    | some _ =>
      (replaceAll tplDeleteFileSuccess phFILENAME filename, fsRemove fs fname)

/-- `_handle_read_command`: the feedback string injected into the next
turn (the store is not modified). -/
def handleReadCommand (agentName : List Char) (fs : FileStore)
    (filename : List Char) : List Char :=
  match getSecurePath filename with
  | none => []
  | some fname =>
    match fsLookup fs fname with
    | none =>
      replaceAll (replaceAll tplReadNotFound phNAME agentName)
        phFILENAME filename
    | some content =>
      replaceAll (replaceAll (replaceAll tplReadSuccess phNAME agentName)
        phFILENAME filename) phCONTENT content

/-! ## Group-capturing parsers

`GP` parsers return the total match length together with a captured
group.  The body-group combinators (`gp...`) pass the group through from
a dedicated tail; the span-group combinators (`cg...`) accumulate the
matched text itself into the group (used for the parenthesised
alternation of `agent_commands`). -/

abbrev GP := List Char → Option (Nat × List Char)

def gpchE (c : Char) (next : GP) : GP := fun s =>
  match s with
  | [] => none
  | x :: xs =>
    if x == c then (next xs).map (fun r => (r.1 + 1, r.2)) else none

def gpword (w : List Char) (next : GP) : GP := fun s =>
  match pword w s with
  | none => none
  | some n => (next (s.drop n)).map (fun r => (r.1 + n, r.2))

def gpTryFrom (next : GP) (s : List Char) : Nat → Option (Nat × List Char)
  | 0 => next s
  | k + 1 =>
    match next (s.drop (k + 1)) with
    | some r => some (k + 1 + r.1, r.2)
    | none => gpTryFrom next s k

def gpstar (cls : Char → Bool) (next : GP) : GP := fun s =>
  gpTryFrom next s (s.takeWhile cls).length

def gporelse (p q : GP) : GP := fun s =>
  match p s with
  | some r => some r
  | none => q s

/-- The fragment `\s*-\s*` (group-transparent). -/
def gpwsDash (next : GP) : GP := gpstar pySpace (gpchE '-' (gpstar pySpace next))

/-- The tail `\s*(.*?)\s*\}` with the lazy group captured, under
`re.DOTALL`: the greedy leading `\s*` takes the maximal whitespace run,
the lazy group then grows minimally until only whitespace separates it
from the first close brace — so the group is the text strictly between
the colon and the first close brace, with the leading and trailing
whitespace runs removed.  Fails when no close brace follows. -/
def gpGroupTail : GP := fun s =>
  let lead := (s.takeWhile pySpace).length
  let rest := s.drop lead
  let w := rest.takeWhile (fun c => !(c == rbrace))
  if w.length < rest.length then some (lead + w.length + 1, rstripSp w)
  else none

/-- The `thinking` validation pattern `\{\s*thinking\s*:\s*(.*?)\s*\}`
(note the proper `\s*` after the open brace, unlike the union pattern). -/
def thinkingPat : GP :=
  gpchE lbrace (gpstar pySpace (gpword ("thinking".data)
    (gpstar pySpace (gpchE ':' gpGroupTail))))

/-- The `self_prompt_content` validation pattern
`{s*self\s*-\s*prompt\s*-\s*from\s*-\s*NAME\s*:\s*(.*?)\s*\}`. -/
def selfPromptContentPat (nm : List Char) : GP :=
  gpchE lbrace (gpstar isSCh (gpword ("self".data)
    (gpwsDash (gpword ("prompt".data)
      (gpwsDash (gpword ("from".data)
        (gpwsDash (gpword nm (gpstar pySpace (gpchE ':' gpGroupTail))))))))))

/-- The `agent_says` pattern `{s*NAME\s*-\s*says\s*:\s*(.*?)\s*\}`. -/
def agentSaysPat (nm : List Char) : GP :=
  gpchE lbrace (gpstar isSCh (gpword nm
    (gpwsDash (gpword ("says".data) (gpstar pySpace (gpchE ':' gpGroupTail))))))

/-- `re.search`: the first position, scanning left to right, at which the
pattern matches; returns that match's group. -/
def searchG (p : GP) : List Char → Option (List Char)
  | [] => (p []).map (·.2)
  | c :: cs =>
    match p (c :: cs) with
    | some r => some r.2
    | none => searchG p cs

/-- `re.finditer` collecting each match's group (non-overlapping,
resuming after each match's end). -/
def findAllGFuel (p : GP) : Nat → List Char → List (List Char)
  | 0, _ => []
  | _ + 1, [] => []
  | fuel + 1, c :: cs =>
    match p (c :: cs) with
    | some r => r.2 :: findAllGFuel p fuel (cs.drop (r.1 - 1))
    | none => findAllGFuel p fuel cs

def findAllG (p : GP) (s : List Char) : List (List Char) :=
  findAllGFuel p s.length s

/-! ## Span-group combinators for the `agent_commands` alternation -/

def cgchE (c : Char) (next : GP) : GP := fun s =>
  match s with
  | [] => none
  | x :: xs =>
    if x == c then (next xs).map (fun r => (r.1 + 1, x :: r.2)) else none

def cgword (w : List Char) (next : GP) : GP := fun s =>
  match pword w s with
  | none => none
  | some n => (next (s.drop n)).map (fun r => (r.1 + n, s.take n ++ r.2))

def cgTryFrom (next : GP) (s : List Char) : Nat → Option (Nat × List Char)
  | 0 => next s
  | k + 1 =>
    match next (s.drop (k + 1)) with
    | some r => some (k + 1 + r.1, s.take (k + 1) ++ r.2)
    | none => cgTryFrom next s k

def cgstar (cls : Char → Bool) (next : GP) : GP := fun s =>
  cgTryFrom next s (s.takeWhile cls).length

def cgplus (cls : Char → Bool) (next : GP) : GP := fun s =>
  match s with
  | [] => none
  | x :: xs =>
    if cls x then (cgstar cls next xs).map (fun r => (r.1 + 1, x :: r.2))
    else none

def cgwsDash (next : GP) : GP := cgstar pySpace (cgchE '-' (cgstar pySpace next))

/-- The tail `)\s*\}`: close the group, then whitespace and the close
brace (outside the group). -/
def cgEndClose : GP := fun s =>
  match wsClose s with
  | some n => some (n, [])
  | none => none

/-- Index of the last close brace in the input. -/
def lastCloseIdx (s : List Char) : Option Nat :=
  let r := s.reverse
  let k := (r.takeWhile (fun c => !(c == rbrace))).length
  if k < r.length then some (s.length - 1 - k) else none

/-- The tail `.*)\s*\}` under `re.DOTALL` with a greedy `.*` inside the
group: the star consumes maximally and backs off only until `\s*\}`
matches, whose close brace must be the last close brace of the input
(no close brace can follow it); so the group extends exactly to that
last close brace and the trailing `\s*` is empty. -/
def cgLastClose : GP := fun s =>
  match lastCloseIdx s with
  | some q => some (q + 1, s.take q)
  | none => none

/-- Alternative `read\s*-\s*file\s*-\s*[\w\.\-]+` of `agent_commands`. -/
def cmdAltRead : GP :=
  cgword ("read".data) (cgwsDash (cgword ("file".data)
    (cgwsDash (cgplus isFnameCh cgEndClose))))

/-- Alternative `push\s*-\s*update\s*-\s*[\w\.\-]+\s*:.*`. -/
def cmdAltPush : GP :=
  cgword ("push".data) (cgwsDash (cgword ("update".data)
    (cgwsDash (cgplus isFnameCh (cgstar pySpace (cgchE ':' cgLastClose))))))

/-- Alternative `[\w\.\-]+\s*-\s*entry\s*-\s*\d+\s*-\s*delete`. -/
def cmdAltEntryDel : GP :=
  cgplus isFnameCh (cgwsDash (cgword ("entry".data)
    (cgwsDash (cgplus isDigitCh (cgwsDash (cgword ("delete".data) cgEndClose))))))

/-- Alternative `create\s*-\s*file\s*-\s*[\w\.\-]+`. -/
def cmdAltCreate : GP :=
  cgword ("create".data) (cgwsDash (cgword ("file".data)
    (cgwsDash (cgplus isFnameCh cgEndClose))))

/-- Alternative `delete\s*-\s*file\s*-\s*[\w\.\-]+`. -/
def cmdAltDelete : GP :=
  cgword ("delete".data) (cgwsDash (cgword ("file".data)
    (cgwsDash (cgplus isFnameCh cgEndClose))))

/-- Alternative `ping-user`. -/
def cmdAltPing : GP := cgword ("ping-user".data) cgEndClose

/-- The `agent_commands` pattern `\{\s*( ... )\s*\}` whose group is the
matched command body, alternatives in source order. -/
def agentCommandsPat : GP :=
  gpchE lbrace (gpstar pySpace
    (gporelse cmdAltRead (gporelse cmdAltPush (gporelse cmdAltEntryDel
      (gporelse cmdAltCreate (gporelse cmdAltDelete cmdAltPing))))))

/-! ## Validation (`_parse_and_validate_response`) -/

def reasonEmpty : List Char := ("Response was empty.".data)

def reasonThinking : List Char :=
  ("Required \x27\x7bthinking\x7d\x27 command is missing or empty.".data)

def reasonSelfPrompt (nm : List Char) : List Char :=
  ("Required \x27\x7bself-prompt-from-".data) ++ nm ++
    ("\x7d\x27 is missing or empty.".data)

def reasonNoBlocks : List Char :=
  ("Could not extract any valid command blocks.".data)

/-- `_parse_and_validate_response` (lines 690-709): the sanitized text on
success, or the validation-failure reason.  The patterns are always
initialized after construction, so the internal-error branch is
unreachable and not modelled. -/
def parseAndValidateResponse (nm raw : List Char) :
    Except (List Char) (List Char) :=
  if raw = [] then .error reasonEmpty
  else
    match searchG thinkingPat raw with
    | none => .error reasonThinking
    | some g =>
      if pyStrip g = [] then .error reasonThinking
      else
        match searchG (selfPromptContentPat nm) raw with
        | none => .error (reasonSelfPrompt nm)
        | some g2 =>
          if pyStrip g2 = [] then .error (reasonSelfPrompt nm)
          else
            if sanitize nm raw = [] then .error reasonNoBlocks
            else .ok (sanitize nm raw)

/-- The `all_self_prompts` pattern
`(\{s*self\s*-\s*prompt\s*-\s*from\s*-\s*NAME\s*:.*?\})`, whose group is
the entire match; its matching semantics coincide with the self-prompt
alternative of the union pattern. -/
def allSelfPromptsPat (nm : List Char) : P := altSelfPrompt nm

/-- Lines 722-723 of `_process_valid_response`: the new self-prompt list,
falling back to the configured fallback template when no self-prompt
block is found in the sanitized text. -/
def newSelfPrompts (nm fallback sanitized : List Char) : List (List Char) :=
  let ps := findAll (allSelfPromptsPat nm) sanitized
  if ps.isEmpty then [fallback] else ps

/-! ## Memory tiers and consolidation (`_handle_memory_consolidation`) -/

/-- The tiered memory: short-, medium- and long-term entries, oldest
first. -/
structure Memory where
  stm : List (List Char)
  mtm : List (List Char)
  ltm : List (List Char)
deriving DecidableEq, Repr

/-- Pop the next summarizer result from the oracle of summarizer outputs
(an exhausted oracle yields the empty summary, i.e. a failed stage). -/
def popSum : List (List Char) → List Char × List (List Char)
  | [] => ([], [])
  | s :: rest => (s, rest)

/-- Number of entries consolidated from a tier of the given capacity:
half of the capacity, or all of it when the capacity is below 4. -/
def numToConsolidate (cap : Nat) : Nat := if 4 ≤ cap then cap / 2 else cap

/-- The STM → MTM cascade step (lines 807-818): when STM has reached
capacity, summarize the oldest entries into one new MTM entry and drop
them from the front of STM; a failed summarization leaves both tiers
unchanged. -/
def stmStage (capStm : Nat) (sums : List (List Char)) (mem : Memory) :
    Memory × List (List Char) :=
  if capStm ≤ mem.stm.length then
    let r := popSum sums
    if r.1 = [] then (mem, r.2)
    else
      ({ mem with mtm := mem.mtm ++ [r.1],
                  stm := mem.stm.drop (numToConsolidate capStm) }, r.2)
  else (mem, sums)

/-- The MTM → LTM cascade step (lines 820-831), same rule as STM → MTM. -/
def mtmStage (capMtm : Nat) (sums : List (List Char)) (mem : Memory) :
    Memory × List (List Char) :=
  if capMtm ≤ mem.mtm.length then
    let r := popSum sums
    if r.1 = [] then (mem, r.2)
    else
      ({ mem with ltm := mem.ltm ++ [r.1],
                  mtm := mem.mtm.drop (numToConsolidate capMtm) }, r.2)
  else (mem, sums)

/-- The LTM compaction step (lines 833-843): when LTM has reached
capacity, LTM is replaced by the remaining entries followed by the one
new consolidated entry. -/
def ltmStage (capLtm : Nat) (sums : List (List Char)) (mem : Memory) :
    Memory × List (List Char) :=
  if capLtm ≤ mem.ltm.length then
    let remaining := mem.ltm.drop (numToConsolidate capLtm)
    let r := popSum sums
    if r.1 = [] then (mem, r.2)
    else ({ mem with ltm := remaining ++ [r.1] }, r.2)
  else (mem, sums)

/-- `_handle_memory_consolidation`: summarize the turn content into a new
STM entry, then run the three cascade steps in order.  The summarizer
oracle is consumed one output per summarization call; an empty output
models a failed call (handler not ready, missing prompt file, or empty
generation). -/
def handleMemoryConsolidation (capStm capMtm capLtm : Nat)
    (sums : List (List Char)) (turnContent : List Char) (mem : Memory) :
    Memory × List (List Char) :=
  if turnContent = [] then (mem, sums)
  else
    let r := popSum sums
    if r.1 = [] then (mem, r.2)
    else
      let mem1 := { mem with stm := mem.stm ++ [r.1] }
      let s2 := stmStage capStm r.2 mem1
      let s3 := mtmStage capMtm s2.2 s2.1
      ltmStage capLtm s3.2 s3.1

/-! ## The engine state and the turn engine -/

/-- The generation service handle (`llm_handler.py`): only its readiness
flag matters to the turn engine. -/
structure LLMHandler where
  apiKeyIsValid : Bool
deriving DecidableEq, Repr

/-- Events sent to the GUI queue (`_send_to_gui`); payload-only logging
events are represented by markers. -/
inductive GuiEvent where
  | errorEvt (msg : List Char)
  | statusUpdate
  | userInputProcessed
  | setUserStatus (st : List Char)
  | updateFullContext
  | logInput
  | updatePersistentStats
  | newMessage
  | logGenerationFailure
  | ttsPlaybackStarted
  | pingUser
deriving DecidableEq, Repr

/-- Static configuration of the engine (fields of `ChatManager` that the
modelled claims read but never write; prompt templates are fixed at
their source defaults). -/
structure Config where
  agentName : List Char
  userName : List Char
  maxFileCharCount : Nat
  maxTerminalFiles : Nat
  allowedFileExtensions : List (List Char)
  chatLogLength : Nat
  capStm : Nat
  capMtm : Nat
  capLtm : Nat
  autoTurnInterval : ℚ
  fallbackSelfPrompt : List Char
deriving DecidableEq

/-- The mutable engine state owned by the Chat Manager worker thread
(usage statistics and TTS queue internals are not modelled; outbound
GUI messages are collected in `outbox`). -/
structure EngineState where
  llmHandler : Option LLMHandler
  pendingUserMessages : List (List Char)
  currentSelfPrompts : List (List Char)
  fileContentForNextTurn : List Char
  forceNextTurn : Bool
  pendingFileRead : Option (List Char)
  recentChatLog : List (List Char)
  userStatus : List Char
  userIsTyping : Bool
  autoTurnEnabled : Bool
  lastActivityTimestamp : ℚ
  idleTurnCounter : Nat
  ttsEnabled : Bool
  unlockGuiAfterTts : Bool
  files : FileStore
  memory : Memory
  outbox : List GuiEvent
deriving DecidableEq

/-- Append to a `deque(maxlen=cap)`: the oldest entries are evicted so
that at most `cap` remain. -/
def ringAppend (cap : Nat) (l : List (List Char)) (x : List Char) :
    List (List Char) :=
  let l' := l ++ [x]
  l'.drop (l'.length - cap)

/-- `_should_trigger_turn` (lines 548-554). -/
def shouldTriggerTurn (cfg : Config) (st : EngineState) (now : ℚ) : Bool :=
  if st.forceNextTurn then true
  else
    let isUserTurn := !st.pendingUserMessages.isEmpty
    let autoTurnTimeElapsed :=
      decide (cfg.autoTurnInterval < now - st.lastActivityTimestamp)
    let isAutoTurn := st.autoTurnEnabled && autoTurnTimeElapsed &&
      !(st.userStatus == ("offline".data)) && !st.userIsTyping
    isUserTurn || isAutoTurn

/-- Whether the generation service is ready
(`self.llm_handler and self.llm_handler.api_key_is_valid`). -/
def llmReady (st : EngineState) : Bool :=
  match st.llmHandler with
  | none => false
  | some h => h.apiKeyIsValid

/-- `re.sub(r'\s*-\s*', '-', cmd)`: each hyphen absorbs the whitespace
runs around it. -/
def dashRun (s : List Char) : Option Nat :=
  let a := (s.takeWhile pySpace).length
  match s.drop a with
  | '-' :: rest => some (a + 1 + (rest.takeWhile pySpace).length)
  | _ => none

def normDashFuel : Nat → List Char → List Char
  | 0, s => s
  | _ + 1, [] => []
  | fuel + 1, c :: cs =>
    match dashRun (c :: cs) with
    | some n => '-' :: normDashFuel fuel ((c :: cs).drop n)
    | none => c :: normDashFuel fuel cs

def normDash (s : List Char) : List Char := normDashFuel s.length s

/-- `re.fullmatch(r"read-file-([\w\.\-]+)", command)`, returning the
captured filename. -/
def matchReadFile (cmd : List Char) : Option (List Char) :=
  match pword ("read-file-".data) cmd with
  | some n =>
    let rest := cmd.drop n
    if !rest.isEmpty && rest.all isFnameCh then some rest else none
  | none => none

/-- The tail `-entry-(\d+)-delete` anchored to the end of the command. -/
def deleteEntryTail (rest : List Char) : Option Nat :=
  match pword ("-entry-".data) rest with
  | none => none
  | some n =>
    let r2 := rest.drop n
    let ds := r2.takeWhile isDigitCh
    if ds.isEmpty then none
    else
      match pword ("-delete".data) (r2.drop ds.length) with
      | some m => if (r2.drop (ds.length + m)).isEmpty then some (digitsToNat ds) else none
      | none => none

def tryDeleteSplit (cmd : List Char) : Nat → Option (List Char × Nat)
  | 0 => none
  | j + 1 =>
    match deleteEntryTail (cmd.drop (j + 1)) with
    | some num => some (cmd.take (j + 1), num)
    | none => tryDeleteSplit cmd j

/-- `re.fullmatch(r"([\w\.\-]+)-entry-(\d+)-delete", command)`: the
greedy group takes the longest filename-character prefix whose remainder
is exactly the `-entry-N-delete` tail. -/
def matchDeleteEntry (cmd : List Char) : Option (List Char × Nat) :=
  tryDeleteSplit cmd (cmd.takeWhile isFnameCh).length

/-- `re.match(r"push-update-([\w\.\-]+)\s*:\s*(.*)", command, re.DOTALL)`:
a prefix match; the second group is everything after the colon and its
whitespace run. -/
def matchPush (cmd : List Char) : Option (List Char × List Char) :=
  match pword ("push-update-".data) cmd with
  | none => none
  | some n =>
    let rest := cmd.drop n
    let f := rest.takeWhile isFnameCh
    if f.isEmpty then none
    else
      let r2 := rest.drop f.length
      match r2.drop (r2.takeWhile pySpace).length with
      | ':' :: r3 => some (f, r3.drop (r3.takeWhile pySpace).length)
      | _ => none

/-- `re.fullmatch(r"create-file-([\w\.\-]+)", command)`. -/
def matchCreateFile (cmd : List Char) : Option (List Char) :=
  match pword ("create-file-".data) cmd with
  | some n =>
    let rest := cmd.drop n
    if !rest.isEmpty && rest.all isFnameCh then some rest else none
  | none => none

/-- `re.fullmatch(r"delete-file-([\w\.\-]+)", command)`. -/
def matchDeleteFile (cmd : List Char) : Option (List Char) :=
  match pword ("delete-file-".data) cmd with
  | some n =>
    let rest := cmd.drop n
    if !rest.isEmpty && rest.all isFnameCh then some rest else none
  | none => none

/-- `_execute_agent_command` (lines 856-883): normalize the command,
dispatch every matching handler in source order (a later handler's
feedback overwrites an earlier one's), handle `ping-user`, and queue any
non-empty feedback for the next turn while forcing it. -/
def executeAgentCommand (cfg : Config) (st : EngineState)
    (rawCommand : List Char) : EngineState :=
  let command := normDash (pyStrip rawCommand)
  match matchReadFile command with
  | some f => { st with pendingFileRead := some f }
  | none =>
    let r1 : Option (List Char) × FileStore :=
      match matchDeleteEntry command with
      | some m => let h := handleDeleteEntryCommand st.files m.1 m.2
                  (some h.1, h.2)
      | none => (none, st.files)
    let r2 : Option (List Char) × FileStore :=
      match matchPush command with
      | some m => let h := handlePushCommand cfg.maxFileCharCount r1.2
                    (pyStrip m.1) (pyStrip m.2)
                  (some h.1, h.2)
      | none => r1
    let r3 : Option (List Char) × FileStore :=
      match matchCreateFile command with
      | some f => let h := handleCreateFileCommand cfg.allowedFileExtensions
                    cfg.maxTerminalFiles r2.2 f
                  (some h.1, h.2)
      | none => r2
    let r4 : Option (List Char) × FileStore :=
      match matchDeleteFile command with
      | some f => let h := handleDeleteFileCommand r3.2 f
                  (some h.1, h.2)
      | none => r3
    let st' := { st with files := r4.2 }
    if pyLower command = ("ping-user".data) then
      { st' with outbox := st'.outbox ++ [GuiEvent.pingUser] }
    else
      match r4.1 with
      | some fb =>
        if fb ≠ [] then
          { st' with fileContentForNextTurn := st'.fileContentForNextTurn ++ fb,
                     forceNextTurn := true }
        else st'
      | none => st'

/-- `_process_valid_response` (lines 711-754): refresh the self-prompts,
log the raw output, append agent utterances to the chat ring buffer
(speaking when TTS is enabled and there are utterances), and execute
every recognized command block of the sanitized stream.  Returns the
updated state and `is_speaking_this_turn`. -/
def processValidResponse (cfg : Config) (st : EngineState)
    (sanitized : List Char) : EngineState × Bool :=
  let st1 := { st with
    currentSelfPrompts := newSelfPrompts cfg.agentName cfg.fallbackSelfPrompt sanitized,
    outbox := st.outbox ++ [GuiEvent.newMessage] }
  let saysTexts := (findAllG (agentSaysPat cfg.agentName) sanitized).map pyStrip
  let st2 := saysTexts.foldl (fun s t =>
    { s with
      recentChatLog := ringAppend cfg.chatLogLength s.recentChatLog
        (cfg.agentName ++ (": ".data) ++ t),
      outbox := s.outbox ++ [GuiEvent.newMessage] }) st1
  let speaking := !saysTexts.isEmpty && st.ttsEnabled
  let st3 :=
    if speaking then { st2 with outbox := st2.outbox ++ [GuiEvent.ttsPlaybackStarted] }
    else st2
  let st4 := (findAllG agentCommandsPat sanitized).foldl
    (fun s c => executeAgentCommand cfg s (pyStrip c)) st3
  (st4, speaking)

/-- `MAX_RETRIES`. -/
def MAXRETRIES : Nat := 3

/-- Error payload of the early abort in `_execute_turn`. -/
def apiKeyErrorMsg : List Char :=
  ("Cannot generate response. API key is missing, invalid, or could not be verified.".data)

/-- The generation-retry loop of `_execute_turn` (lines 583-614): one
generation call per remaining attempt (the oracle `gen` maps the attempt
index to the raw service text, which the code strips); on the first
valid response, consume pending input and the file-feedback buffer and
apply the effects; on validation failure, retry.  Returns the state and,
on success, the speaking flag and the original raw response. -/
def runAttempts (cfg : Config) (gen : Nat → List Char)
    (userMsg : Option (List Char)) :
    List Nat → EngineState → EngineState × Option (Bool × List Char)
  | [], st => (st, none)
  | i :: rest, st =>
    let st1 := { st with outbox := st.outbox ++ [GuiEvent.updatePersistentStats] }
    let raw := pyStrip (gen i)
    match parseAndValidateResponse cfg.agentName raw with
    | .ok sanitized =>
      let st2 :=
        match userMsg with
        | some m =>
          { st1 with
            recentChatLog := ringAppend cfg.chatLogLength st1.recentChatLog
              (cfg.userName ++ (": ".data) ++ m),
            pendingUserMessages := [] }
        | none => st1
      let st3 :=
        if st2.fileContentForNextTurn ≠ [] then
          { st2 with fileContentForNextTurn := [] }
        else st2
      let r := processValidResponse cfg st3 sanitized
      (r.1, some (r.2, raw))
    | .error _ => runAttempts cfg gen userMsg rest st1

/-- Abort path of `_execute_turn` when the LLM handler is missing or its
API key invalid (chat_manager.py lines 560-567): report the error and
drop any pending user messages. -/
def abortTurn (st : EngineState) : EngineState :=
  let st1 := { st with outbox := st.outbox ++ [GuiEvent.errorEvt apiKeyErrorMsg] }
  if st1.pendingUserMessages ≠ [] then
    { st1 with pendingUserMessages := [],
               outbox := st1.outbox ++ [GuiEvent.userInputProcessed] }
  else st1

/-- Marking the user back online when messages arrived while away
(chat_manager.py lines 570-574). -/
def statusStep (st2 : EngineState) : EngineState :=
  if st2.pendingUserMessages ≠ [] ∧ st2.userStatus ≠ ("online".data) then
    { st2 with userStatus := ("online".data), idleTurnCounter := 0,
               outbox := st2.outbox ++ [GuiEvent.setUserStatus (("online".data))] }
  else st2

/-- The combined user message consumed by this turn (lines 576-579). -/
def userMsgOf (st3 : EngineState) : Option (List Char) :=
  if st3.pendingUserMessages ≠ [] then
    some (joinSep (" ".data) st3.pendingUserMessages)
  else none

/-- Post-generation bookkeeping (lines 616-625): on total failure log the
failure, on success run memory consolidation. -/
def postGenStep (cfg : Config) (sums : List (List Char))
    (r : EngineState × Option (Bool × List Char)) : EngineState :=
  match r.2 with
  | none => { r.1 with outbox := r.1.outbox ++ [GuiEvent.logGenerationFailure] }
  | some s =>
    let m := handleMemoryConsolidation cfg.capStm cfg.capMtm cfg.capLtm
      sums s.2 r.1.memory
    { r.1 with memory := m.1, outbox := r.1.outbox ++ [GuiEvent.statusUpdate] }

/-- Acknowledging consumed user input after a successful turn
(lines 627-631). -/
def inputDoneStep (userMsg : Option (List Char))
    (res : Option (Bool × List Char)) (stA : EngineState) : EngineState :=
  match userMsg, res with
  | some _, some s =>
    if s.1 then { stA with unlockGuiAfterTts := true }
    else { stA with outbox := stA.outbox ++ [GuiEvent.userInputProcessed] }
  | _, _ => stA

/-- Serving a queued file read and forcing the follow-up turn
(lines 633-638). -/
def fileReadStep (cfg : Config) (stB : EngineState) : EngineState :=
  match stB.pendingFileRead with
  | some f =>
    { stB with
      fileContentForNextTurn := stB.fileContentForNextTurn ++
        handleReadCommand cfg.agentName stB.files f,
      forceNextTurn := true,
      pendingFileRead := none }
  | none => stB

/-- Refreshing the idle timer unless a forced turn or speech is in
flight (lines 640-642). -/
def timeStep (now : ℚ) (speaking : Bool) (stC : EngineState) : EngineState :=
  if !stC.forceNextTurn && !speaking then
    { stC with lastActivityTimestamp := now }
  else stC

/-- The main body of `_execute_turn` once the handler is ready
(chat_manager.py lines 569-643), as the composition of its stages. -/
def mainTurn (cfg : Config) (gen : Nat → List Char) (sums : List (List Char))
    (now : ℚ) (st : EngineState) : EngineState :=
  let st2 := { st with outbox := st.outbox ++ [GuiEvent.statusUpdate] }
  let st3 := statusStep st2
  let userMsg := userMsgOf st3
  let st4 := { st3 with
    outbox := st3.outbox ++ [GuiEvent.updateFullContext, GuiEvent.logInput] }
  let r := runAttempts cfg gen userMsg (List.range MAXRETRIES) st4
  let stA := postGenStep cfg sums r
  let stB := inputDoneStep userMsg r.2 stA
  let stC := fileReadStep cfg stB
  let speaking := match r.2 with | some s => s.1 | none => false
  let stD := timeStep now speaking stC
  { stD with outbox := stD.outbox ++ [GuiEvent.statusUpdate] }

/-- `_execute_turn` (lines 556-638).  `gen` is the generation-service
oracle (attempt index to raw text), `sums` the summarizer oracle, and
`now` the current monotonic time.  Prompt construction is pure
(reflected only by logging events) and its text feeds the oracle. -/
def executeTurn (cfg : Config) (gen : Nat → List Char)
    (sums : List (List Char)) (now : ℚ) (st0 : EngineState) : EngineState :=
  let st := if st0.forceNextTurn then { st0 with forceNextTurn := false } else st0
  if !llmReady st then abortTurn st
  else mainTurn cfg gen sums now st

/-! ## Derived predicates and concrete instances -/

/-- Whether an `Except` result is a success. -/
def isOkE {ε α : Type} : Except ε α → Bool
  | .ok _ => true
  | .error _ => false

/-- The first `thinking`-pattern match is absent or has a blank body —
the condition under which validation reports the thinking reason. -/
def thinkingMissingOrEmpty (raw : List Char) : Bool :=
  match searchG thinkingPat raw with
  | none => true
  | some g => pyStrip g == []

/-- The first `self-prompt`-pattern match is absent or has a blank body. -/
def selfPromptMissingOrEmpty (nm raw : List Char) : Bool :=
  match searchG (selfPromptContentPat nm) raw with
  | none => true
  | some g => pyStrip g == []

/-- Spec-side reading of "a non-empty `thinking` block is present":
somewhere in the text the thinking pattern matches with a body that is
not blank. -/
def existsNonEmptyThinking : List Char → Bool
  | [] =>
    match thinkingPat [] with
    | some r => !(pyStrip r.2 == [])
    | none => false
  | c :: cs =>
    (match thinkingPat (c :: cs) with
     | some r => !(pyStrip r.2 == [])
     | none => false) || existsNonEmptyThinking cs

/-- Spec-side reading of "a non-empty self-prompt block is present". -/
def existsNonEmptySelfPrompt (nm : List Char) : List Char → Bool
  | [] =>
    match selfPromptContentPat nm [] with
    | some r => !(pyStrip r.2 == [])
    | none => false
  | c :: cs =>
    (match selfPromptContentPat nm (c :: cs) with
     | some r => !(pyStrip r.2 == [])
     | none => false) || existsNonEmptySelfPrompt nm cs

/-- A raw output whose first thinking block is blank but whose second is
not: the validator inspects only the first match. -/
def rawC4 : List Char :=
  ("\x7bthinking: \x7d\x7bthinking: real\x7d\x7bself-prompt-from-Agent: go\x7d".data)

/-- A configuration with the source defaults. -/
def cfg0 : Config where
  agentName := ("Agent".data)
  userName := ("User".data)
  maxFileCharCount := 500
  maxTerminalFiles := 10
  allowedFileExtensions := [(".txt".data)]
  chatLogLength := 10
  capStm := 6
  capMtm := 6
  capLtm := 6
  autoTurnInterval := 60
  fallbackSelfPrompt := tplFallbackSelfPrompt

/-- The empty memory. -/
def mem0 : Memory where
  stm := []
  mtm := []
  ltm := []

/-- A quiescent engine state with a ready generation service. -/
def st0 : EngineState where
  llmHandler := some { apiKeyIsValid := true }
  pendingUserMessages := []
  currentSelfPrompts := [tplFallbackSelfPrompt]
  fileContentForNextTurn := []
  forceNextTurn := false
  pendingFileRead := none
  recentChatLog := []
  userStatus := ("online".data)
  userIsTyping := false
  autoTurnEnabled := false
  lastActivityTimestamp := 0
  idleTurnCounter := 0
  ttsEnabled := false
  unlockGuiAfterTts := false
  files := []
  memory := mem0
  outbox := []

/-- A generation oracle that always returns an empty text (every attempt
fails validation). -/
def genEmpty : Nat → List Char := fun _ => []

/-- Content of a `.txt` file holding entries 1, 2 and 3. -/
def contentEntries123 : List Char :=
  ("\x7bentry-1 : a\x7d\n\x7bentry-2 : b\x7d\n\x7bentry-3 : c\x7d".data)

/-- Content of a `.txt` file holding entries 1 and 2. -/
def contentEntries12 : List Char :=
  ("\x7bentry-1 : a\x7d\n\x7bentry-2 : b\x7d".data)

/-- The name of the scenario file. -/
def notesName : List Char := ("notes.txt".data)

/-- The part of the capacity template before the current-content
placeholder. -/
def tplPushCapacityPre : List Char :=
  ("\x7bTerminal: file-update-failed-capacity-exceeded\x7d\x7d => \x7b\x7bfile: __FILENAME__\x7d \x7b\x7burgent-action-required: You must delete an old entry to make space for your new update. To delete an entry, use the format \x27\x7b__FILENAME__-entry-[number]-delete\x7d\x27. The current content is: ".data)

/-- The part of the capacity template after the current-content
placeholder. -/
def tplPushCapacitySuf : List Char := ("\x7d\x7d".data)

/-! ## Predicates used by the idempotence development -/

/-- The prefix of `s` up to and including the first close brace (all of
`s` if there is none). -/
def cut : List Char → List Char
  | [] => []
  | c :: cs => if c == rbrace then [c] else c :: cut cs

/-- A parser is clean when any match consumes only non-brace characters. -/
def Clean (p : P) : Prop :=
  ∀ s n, p s = some n → n ≤ s.length ∧ rbrace ∉ s.take n

/-- A parser is almost clean when any match is nonempty, ends exactly at a
close brace, and contains no earlier close brace. -/
def AClean (p : P) : Prop :=
  ∀ s n, p s = some n →
    1 ≤ n ∧ n ≤ s.length ∧ s.take n = s.take (n - 1) ++ [rbrace] ∧
      rbrace ∉ s.take (n - 1)

/-- A parser is cut-determined when its result depends only on the input's
brace prefix. -/
def CutDet (p : P) : Prop := ∀ s t, cut s = cut t → p s = p t

/-- A name is brace-safe when none of its characters lower-cases to the
close brace (in particular it contains no close brace). -/
abbrev BraceSafe (w : List Char) : Prop := ∀ c ∈ w, lowerAscii c ≠ rbrace

/-- A block as extracted by `findall`: nonempty, matched exactly by the
pattern, with its only close brace at the end. -/
def GoodBlock (u : P) (b : List Char) : Prop :=
  1 ≤ b.length ∧ u b = some b.length ∧
    b.take (b.length - 1) ++ [rbrace] = b ∧ rbrace ∉ b.take (b.length - 1)

/-! ## Brace-prefix determinism

Every alternative of the union pattern examines the input only up to and
including the first close brace: all components except the final one
consume only non-brace characters, and the final component consumes the
first reachable close brace.  `cut s` is that determining prefix. -/

theorem lowerAscii_rbrace : lowerAscii rbrace = rbrace := by decide

theorem ne_rbrace_of_eqCI {x c : Char} (hc : lowerAscii c ≠ rbrace)
    (h : eqCI x c = true) : x ≠ rbrace := by
  intro hx
  subst hx
  have h' : lowerAscii rbrace = lowerAscii c := by
    simpa [eqCI] using h
  exact hc (by rw [← h', lowerAscii_rbrace])

theorem isSCh_rbrace : isSCh rbrace = false := by decide
theorem pySpace_rbrace : pySpace rbrace = false := by decide
theorem isFnameCh_rbrace : isFnameCh rbrace = false := by decide
theorem isDigitCh_rbrace : isDigitCh rbrace = false := by decide

theorem ne_rbrace_of_cls {cls : Char → Bool} (hcls : cls rbrace = false)
    {c : Char} (h : cls c = true) : c ≠ rbrace := by
  intro hx; subst hx; rw [hcls] at h; exact Bool.noConfusion h

theorem clean_pchE {c : Char} (hc : c ≠ rbrace) : Clean (pchE c) := by
  intro s n h
  cases s with
  | nil => simp [pchE] at h
  | cons x xs =>
    simp only [pchE] at h
    split at h
    · rename_i hx
      cases h
      refine ⟨by simp, ?_⟩
      simp only [List.take_succ_cons, List.take_zero]
      intro hm
      have hx' : x = c := by simpa using hx
      rcases List.mem_singleton.mp hm with rfl
      exact hc hx'.symm
    · simp at h

theorem aclean_pchE_rbrace : AClean (pchE rbrace) := by
  intro s n h
  cases s with
  | nil => simp [pchE] at h
  | cons x xs =>
    simp only [pchE] at h
    split at h
    · rename_i hx
      cases h
      have hx' : x = rbrace := by simpa using hx
      subst hx'
      exact ⟨le_refl 1, by simp, by simp, by simp⟩
    · simp at h

theorem clean_pword (w : List Char) (hw : ∀ c ∈ w, lowerAscii c ≠ rbrace) :
    Clean (pword w) := by
  induction w with
  | nil =>
    intro s n h
    simp only [pword] at h
    cases h
    simp
  | cons c w ih =>
    intro s n h
    cases s with
    | nil => simp [pword] at h
    | cons x xs =>
      simp only [pword] at h
      split at h
      · rename_i hx
        rcases Option.map_eq_some'.mp h with ⟨m, hm, rfl⟩
        obtain ⟨hlen, hmem⟩ := ih (fun a ha => hw a (List.mem_cons_of_mem _ ha)) xs m hm
        refine ⟨by simpa using Nat.succ_le_succ hlen, ?_⟩
        simp only [List.take_succ_cons, List.mem_cons]
        rintro (hr | hr)
        · exact ne_rbrace_of_eqCI (hw c (List.mem_cons_self _ _)) hx hr.symm
        · exact hmem hr
      · simp at h

theorem clean_pthen {p q : P} (hp : Clean p) (hq : Clean q) :
    Clean (pthen p q) := by
  intro s n h
  simp only [pthen] at h
  split at h
  · simp at h
  · rename_i a ha
    rcases Option.map_eq_some'.mp h with ⟨b, hb, rfl⟩
    obtain ⟨ha1, ha2⟩ := hp s a ha
    obtain ⟨hb1, hb2⟩ := hq _ b hb
    rw [List.length_drop] at hb1
    refine ⟨by omega, ?_⟩
    rw [List.take_add]
    intro hm
    rcases List.mem_append.mp hm with hm | hm
    · exact ha2 hm
    · exact hb2 hm

theorem aclean_pthen {p q : P} (hp : Clean p) (hq : AClean q) :
    AClean (pthen p q) := by
  intro s n h
  simp only [pthen] at h
  split at h
  · simp at h
  · rename_i a ha
    rcases Option.map_eq_some'.mp h with ⟨b, hb, rfl⟩
    obtain ⟨ha1, ha2⟩ := hp s a ha
    obtain ⟨hb0, hb1, hb2, hb3⟩ := hq _ b hb
    rw [List.length_drop] at hb1
    have hsum : a + b - 1 = a + (b - 1) := by omega
    refine ⟨by omega, by omega, ?_, ?_⟩
    · rw [List.take_add, hb2, hsum, List.take_add, List.append_assoc]
    · rw [hsum, List.take_add]
      intro hm
      rcases List.mem_append.mp hm with hm | hm
      · exact ha2 hm
      · exact hb3 hm

theorem clean_porelse {p q : P} (hp : Clean p) (hq : Clean q) :
    Clean (porelse p q) := by
  intro s n h
  simp only [porelse] at h
  split at h
  · rename_i m hm; exact hp s n (hm.trans h)
  · exact hq s n h

theorem aclean_porelse {p q : P} (hp : AClean p) (hq : AClean q) :
    AClean (porelse p q) := by
  intro s n h
  simp only [porelse] at h
  split at h
  · rename_i m hm; exact hp s n (hm.trans h)
  · exact hq s n h

theorem tryFrom_eq_some {next : P} {s : List Char} :
    ∀ {k n}, tryFrom next s k = some n →
      ∃ j m, j ≤ k ∧ next (s.drop j) = some m ∧ n = j + m := by
  intro k
  induction k with
  | zero =>
    intro n h
    exact ⟨0, n, le_refl 0, by simpa using h, by omega⟩
  | succ k ih =>
    intro n h
    simp only [tryFrom] at h
    split at h
    · rename_i m hm
      cases h
      exact ⟨k + 1, m, le_refl _, hm, rfl⟩
    · rcases ih h with ⟨j, m, hj, hm, rfl⟩
      exact ⟨j, m, Nat.le_succ_of_le hj, hm, rfl⟩

theorem cls_of_mem_take {cls : Char → Bool} :
    ∀ (s : List Char) (j : Nat), j ≤ (s.takeWhile cls).length →
      ∀ c ∈ s.take j, cls c = true := by
  intro s
  induction s with
  | nil => intro j _ c hc; simp at hc
  | cons x xs ih =>
    intro j hj c hc
    cases j with
    | zero => simp at hc
    | succ j =>
      by_cases hx : cls x
      · rw [List.takeWhile_cons_of_pos hx] at hj
        simp only [List.length_cons, Nat.succ_le_succ_iff] at hj
        simp only [List.take_succ_cons, List.mem_cons] at hc
        rcases hc with rfl | hc
        · exact hx
        · exact ih j hj c hc
      · rw [List.takeWhile_cons_of_neg hx] at hj
        simp at hj

theorem takeWhile_len_le (cls : Char → Bool) (s : List Char) :
    (s.takeWhile cls).length ≤ s.length :=
  (List.takeWhile_prefix cls).length_le

theorem aclean_pstarG {cls : Char → Bool} (hcls : cls rbrace = false)
    {next : P} (hn : AClean next) : AClean (pstarG cls next) := by
  intro s n h
  rcases tryFrom_eq_some h with ⟨j, m, hj, hm, rfl⟩
  have hjrun : j ≤ s.length := le_trans hj (takeWhile_len_le cls s)
  obtain ⟨hm0, hm1, hm2, hm3⟩ := hn _ m hm
  rw [List.length_drop] at hm1
  have hclsj : ∀ c ∈ s.take j, cls c = true := cls_of_mem_take s j hj
  have hjmem : rbrace ∉ s.take j := fun hr =>
    ne_rbrace_of_cls hcls (hclsj rbrace hr) rfl
  have hsum : j + m - 1 = j + (m - 1) := by omega
  refine ⟨by omega, by omega, ?_, ?_⟩
  · rw [List.take_add, hm2, hsum, List.take_add, List.append_assoc]
  · rw [hsum, List.take_add]
    intro hr
    rcases List.mem_append.mp hr with hr | hr
    · exact hjmem hr
    · exact hm3 hr

theorem aclean_pplusG {cls : Char → Bool} (hcls : cls rbrace = false)
    {next : P} (hn : AClean next) : AClean (pplusG cls next) := by
  intro s n h
  cases s with
  | nil => simp [pplusG] at h
  | cons x xs =>
    simp only [pplusG] at h
    split at h
    · rename_i hx
      rcases Option.map_eq_some'.mp h with ⟨m, hm, rfl⟩
      obtain ⟨hm0, hm1, hm2, hm3⟩ := aclean_pstarG hcls hn xs m hm
      have hx' : x ≠ rbrace := ne_rbrace_of_cls hcls hx
      have h1 : m + 1 - 1 = m := by omega
      refine ⟨by omega, by simpa using Nat.succ_le_succ hm1, ?_, ?_⟩
      · rw [h1]
        show (x :: xs).take (m + 1) = (x :: xs).take m ++ [rbrace]
        cases m with
        | zero => omega
        | succ m' =>
          simp only [List.take_succ_cons]
          have : m' + 1 - 1 = m' := by omega
          rw [this] at hm2
          rw [hm2]
          simp
      · rw [h1]
        cases m with
        | zero => omega
        | succ m' =>
          simp only [List.take_succ_cons, List.mem_cons]
          have : m' + 1 - 1 = m' := by omega
          rw [this] at hm3
          rintro (hr | hr)
          · exact hx' hr.symm
          · exact hm3 hr
    · simp at h

theorem aclean_pScanClose : AClean pScanClose := by
  intro s
  induction s with
  | nil => intro n h; simp [pScanClose] at h
  | cons c cs ih =>
    intro n h
    simp only [pScanClose] at h
    split at h
    · rename_i hc
      cases h
      have hc' : c = rbrace := by simpa using hc
      subst hc'
      exact ⟨le_refl 1, by simp, by simp, by simp⟩
    · rename_i hc
      rcases Option.map_eq_some'.mp h with ⟨m, hm, rfl⟩
      obtain ⟨hm0, hm1, hm2, hm3⟩ := ih m hm
      have hc' : ¬(c = rbrace) := by simpa using hc
      have h1 : m + 1 - 1 = m := by omega
      refine ⟨by omega, by simpa using Nat.succ_le_succ hm1, ?_, ?_⟩
      · rw [h1]
        show (c :: cs).take (m + 1) = (c :: cs).take m ++ [rbrace]
        cases m with
        | zero => omega
        | succ m' =>
          simp only [List.take_succ_cons]
          have hmm : m' + 1 - 1 = m' := by omega
          rw [hmm] at hm2
          rw [hm2]
          simp
      · rw [h1]
        cases m with
        | zero => omega
        | succ m' =>
          simp only [List.take_succ_cons, List.mem_cons]
          have hmm : m' + 1 - 1 = m' := by omega
          rw [hmm] at hm3
          rintro (hr | hr)
          · exact hc' hr.symm
          · exact hm3 hr

theorem cut_eq_nil {s : List Char} (h : cut s = []) : s = [] := by
  cases s with
  | nil => rfl
  | cons c cs =>
    simp only [cut] at h
    split at h <;> simp at h

theorem cut_cons_elim {a : Char} {s' t : List Char}
    (h : cut (a :: s') = cut t) :
    ∃ t', t = a :: t' ∧ (a ≠ rbrace → cut s' = cut t') := by
  cases t with
  | nil =>
    exfalso
    simp only [cut] at h
    split at h <;> simp at h
  | cons b t' =>
    simp only [cut] at h
    split at h <;> split at h
    · rename_i ha hb
      have ha' : a = rbrace := by simpa using ha
      have hb' : b = rbrace := by simpa using hb
      exact ⟨t', by rw [ha', hb'], fun hcon => absurd ha' hcon⟩
    · rename_i ha hb
      have : a = b ∧ cut t' = ([] : List Char) := by
        have := h
        simp only [List.cons.injEq] at this
        exact ⟨this.1, this.2.symm⟩
      exfalso
      have ha' : a = rbrace := by simpa using ha
      have hb' : ¬(b = rbrace) := by simpa using hb
      exact hb' (this.1 ▸ ha')
    · rename_i ha hb
      exfalso
      have hb' : b = rbrace := by simpa using hb
      have ha' : ¬(a = rbrace) := by simpa using ha
      simp only [List.cons.injEq] at h
      exact ha' (h.1 ▸ hb' ▸ rfl)
    · rename_i ha hb
      simp only [List.cons.injEq] at h
      exact ⟨t', by rw [h.1], fun _ => h.2⟩

theorem cut_drop {n : Nat} :
    ∀ {s t : List Char}, cut s = cut t → rbrace ∉ s.take n → n ≤ s.length →
      s.take n = t.take n ∧ cut (s.drop n) = cut (t.drop n) := by
  induction n with
  | zero => intro s t h _ _; exact ⟨rfl, by simpa using h⟩
  | succ n ih =>
    intro s t h hmem hlen
    cases s with
    | nil => simp at hlen
    | cons a s' =>
      rcases cut_cons_elim h with ⟨t', rfl, htail⟩
      simp only [List.take_succ_cons, List.mem_cons] at hmem
      push_neg at hmem
      have ha : a ≠ rbrace := fun hr => hmem.1 hr.symm
      have hcut' : cut s' = cut t' := htail ha
      simp only [List.length_cons, Nat.succ_le_succ_iff] at hlen
      obtain ⟨h1, h2⟩ := ih hcut' hmem.2 hlen
      exact ⟨by simp [h1], by simpa using h2⟩

theorem takeWhile_congr_cut {cls : Char → Bool} (hcls : cls rbrace = false) :
    ∀ {s t : List Char}, cut s = cut t → s.takeWhile cls = t.takeWhile cls := by
  intro s
  induction s with
  | nil => intro t h; rw [cut_eq_nil h.symm]
  | cons a s' ih =>
    intro t h
    rcases cut_cons_elim h with ⟨t', rfl, htail⟩
    by_cases ha : cls a
    · have ha' : a ≠ rbrace := ne_rbrace_of_cls hcls ha
      rw [List.takeWhile_cons_of_pos ha, List.takeWhile_cons_of_pos ha,
        ih (htail ha')]
    · rw [List.takeWhile_cons_of_neg ha, List.takeWhile_cons_of_neg ha]

theorem cutdet_pchE (c : Char) : CutDet (pchE c) := by
  intro s t h
  cases s with
  | nil => rw [cut_eq_nil h.symm]
  | cons a s' =>
    rcases cut_cons_elim h with ⟨t', rfl, _⟩
    rfl

theorem cutdet_pword (w : List Char) (hw : ∀ c ∈ w, lowerAscii c ≠ rbrace) :
    CutDet (pword w) := by
  induction w with
  | nil => intro s t _; rfl
  | cons c w ih =>
    intro s t h
    cases s with
    | nil => rw [cut_eq_nil h.symm]
    | cons a s' =>
      rcases cut_cons_elim h with ⟨t', rfl, htail⟩
      show pword (c :: w) (a :: s') = pword (c :: w) (a :: t')
      simp only [pword]
      by_cases hac : eqCI a c
      · have ha : a ≠ rbrace :=
          ne_rbrace_of_eqCI (hw c (List.mem_cons_self _ _)) hac
        rw [ih (fun x hx => hw x (List.mem_cons_of_mem _ hx)) s' t' (htail ha)]
      · simp [hac]

theorem cutdet_pthen {p q : P} (hpD : CutDet p) (hpC : Clean p)
    (hq : CutDet q) : CutDet (pthen p q) := by
  intro s t h
  have hps : p s = p t := hpD s t h
  cases hcase : p s with
  | none => simp only [pthen, ← hps, hcase]
  | some a =>
    obtain ⟨ha1, ha2⟩ := hpC s a hcase
    obtain ⟨_, hdrop⟩ := cut_drop h ha2 ha1
    simp only [pthen, ← hps, hcase]
    rw [hq _ _ hdrop]

theorem cutdet_tryFrom {next : P} (hn : CutDet next) :
    ∀ (k : Nat) {s t : List Char}, cut s = cut t → rbrace ∉ s.take k →
      k ≤ s.length → tryFrom next s k = tryFrom next t k := by
  intro k
  induction k with
  | zero => intro s t h _ _; exact hn s t h
  | succ k ih =>
    intro s t h hmem hlen
    obtain ⟨_, hdrop⟩ := cut_drop h hmem hlen
    simp only [tryFrom]
    rw [hn _ _ hdrop]
    have hsub : (s.take k) ⊆ s.take (k + 1) := by
      have : s.take k = (s.take (k + 1)).take k := by
        rw [List.take_take]
        congr 1
        omega
      rw [this]
      exact List.take_subset _ _
    exact ih h (fun hr => hmem (hsub hr)) (by omega) ▸ rfl

theorem cutdet_pstarG {cls : Char → Bool} (hcls : cls rbrace = false)
    {next : P} (hn : CutDet next) : CutDet (pstarG cls next) := by
  intro s t h
  simp only [pstarG]
  rw [takeWhile_congr_cut hcls h]
  set k := (t.takeWhile cls).length with hk
  have hkrun : k ≤ (s.takeWhile cls).length := by
    rw [takeWhile_congr_cut hcls h]
  have hmem : rbrace ∉ s.take k := fun hr =>
    ne_rbrace_of_cls hcls (cls_of_mem_take s k hkrun rbrace hr) rfl
  exact cutdet_tryFrom hn k h hmem (le_trans hkrun (takeWhile_len_le cls s))

theorem cutdet_pplusG {cls : Char → Bool} (hcls : cls rbrace = false)
    {next : P} (hn : CutDet next) : CutDet (pplusG cls next) := by
  intro s t h
  cases s with
  | nil => rw [cut_eq_nil h.symm]
  | cons a s' =>
    rcases cut_cons_elim h with ⟨t', rfl, htail⟩
    show pplusG cls next (a :: s') = pplusG cls next (a :: t')
    simp only [pplusG]
    by_cases ha : cls a
    · have ha' : a ≠ rbrace := ne_rbrace_of_cls hcls ha
      rw [cutdet_pstarG hcls hn s' t' (htail ha')]
    · simp [ha]

theorem cutdet_pScanClose : CutDet pScanClose := by
  intro s
  induction s with
  | nil => intro t h; rw [cut_eq_nil h.symm]
  | cons a s' ih =>
    intro t h
    rcases cut_cons_elim h with ⟨t', rfl, htail⟩
    show pScanClose (a :: s') = pScanClose (a :: t')
    simp only [pScanClose]
    by_cases ha : a == rbrace
    · simp [ha]
    · have ha' : a ≠ rbrace := by simpa using ha
      rw [ih t' (htail ha')]

theorem cutdet_porelse {p q : P} (hp : CutDet p) (hq : CutDet q) :
    CutDet (porelse p q) := by
  intro s t h
  simp only [porelse]
  rw [← hp s t h]
  cases p s with
  | some m => rfl
  | none => exact hq s t h

/-! ## The union pattern is almost clean and cut-determined -/

theorem lbrace_ne_rbrace : lbrace ≠ rbrace := by decide
theorem colon_ne_rbrace : ':' ≠ rbrace := by decide
theorem dash_ne_rbrace : '-' ≠ rbrace := by decide

theorem aclean_wsG {next : P} (hn : AClean next) : AClean (wsG next) :=
  aclean_pstarG pySpace_rbrace hn

theorem cutdet_wsG {next : P} (hn : CutDet next) : CutDet (wsG next) :=
  cutdet_pstarG pySpace_rbrace hn

theorem aclean_wsDash {next : P} (hn : AClean next) : AClean (wsDash next) :=
  aclean_wsG (aclean_pthen (clean_pchE dash_ne_rbrace) (aclean_wsG hn))

theorem cutdet_wsDash {next : P} (hn : CutDet next) : CutDet (wsDash next) :=
  cutdet_wsG (cutdet_pthen (cutdet_pchE '-') (clean_pchE dash_ne_rbrace)
    (cutdet_wsG hn))

theorem aclean_colonBody : AClean colonBody :=
  aclean_wsG (aclean_pthen (clean_pchE colon_ne_rbrace) aclean_pScanClose)

theorem cutdet_colonBody : CutDet colonBody :=
  cutdet_wsG (cutdet_pthen (cutdet_pchE ':') (clean_pchE colon_ne_rbrace)
    cutdet_pScanClose)

theorem aclean_wsClose : AClean wsClose := aclean_wsG aclean_pchE_rbrace

theorem cutdet_wsClose : CutDet wsClose := cutdet_wsG (cutdet_pchE rbrace)

theorem safe_thinking : BraceSafe ("thinking".data) := by decide
theorem safe_says : BraceSafe ("says".data) := by decide
theorem safe_self : BraceSafe ("self".data) := by decide
theorem safe_prompt : BraceSafe ("prompt".data) := by decide
theorem safe_from : BraceSafe ("from".data) := by decide
theorem safe_read : BraceSafe ("read".data) := by decide
theorem safe_file : BraceSafe ("file".data) := by decide
theorem safe_push : BraceSafe ("push".data) := by decide
theorem safe_update : BraceSafe ("update".data) := by decide
theorem safe_entry : BraceSafe ("entry".data) := by decide
theorem safe_delete : BraceSafe ("delete".data) := by decide
theorem safe_create : BraceSafe ("create".data) := by decide
theorem safe_ping : BraceSafe ("ping-user".data) := by decide

theorem aclean_head {next : P} (hn : AClean next) :
    AClean (pthen (pchE lbrace) (pstarG isSCh next)) :=
  aclean_pthen (clean_pchE lbrace_ne_rbrace) (aclean_pstarG isSCh_rbrace hn)

theorem cutdet_head {next : P} (hn : CutDet next) :
    CutDet (pthen (pchE lbrace) (pstarG isSCh next)) :=
  cutdet_pthen (cutdet_pchE lbrace) (clean_pchE lbrace_ne_rbrace)
    (cutdet_pstarG isSCh_rbrace hn)

theorem aclean_word_then {w : List Char} (hw : BraceSafe w) {next : P}
    (hn : AClean next) : AClean (pthen (pword w) next) :=
  aclean_pthen (clean_pword w hw) hn

theorem cutdet_word_then {w : List Char} (hw : BraceSafe w) {next : P}
    (hn : CutDet next) : CutDet (pthen (pword w) next) :=
  cutdet_pthen (cutdet_pword w hw) (clean_pword w hw) hn

theorem aclean_altThinking : AClean altThinking :=
  aclean_head (aclean_word_then safe_thinking aclean_colonBody)

theorem cutdet_altThinking : CutDet altThinking :=
  cutdet_head (cutdet_word_then safe_thinking cutdet_colonBody)

theorem aclean_altSays {nm : List Char} (hnm : BraceSafe nm) :
    AClean (altSays nm) :=
  aclean_head (aclean_word_then hnm
    (aclean_wsDash (aclean_word_then safe_says aclean_colonBody)))

theorem cutdet_altSays {nm : List Char} (hnm : BraceSafe nm) :
    CutDet (altSays nm) :=
  cutdet_head (cutdet_word_then hnm
    (cutdet_wsDash (cutdet_word_then safe_says cutdet_colonBody)))

theorem aclean_altSelfPrompt {nm : List Char} (hnm : BraceSafe nm) :
    AClean (altSelfPrompt nm) :=
  aclean_head (aclean_word_then safe_self
    (aclean_wsDash (aclean_word_then safe_prompt
      (aclean_wsDash (aclean_word_then safe_from
        (aclean_wsDash (aclean_word_then hnm aclean_colonBody)))))))

theorem cutdet_altSelfPrompt {nm : List Char} (hnm : BraceSafe nm) :
    CutDet (altSelfPrompt nm) :=
  cutdet_head (cutdet_word_then safe_self
    (cutdet_wsDash (cutdet_word_then safe_prompt
      (cutdet_wsDash (cutdet_word_then safe_from
        (cutdet_wsDash (cutdet_word_then hnm cutdet_colonBody)))))))

theorem aclean_altReadFile : AClean altReadFile :=
  aclean_head (aclean_word_then safe_read
    (aclean_wsDash (aclean_word_then safe_file
      (aclean_wsDash (aclean_pplusG isFnameCh_rbrace aclean_wsClose)))))

theorem cutdet_altReadFile : CutDet altReadFile :=
  cutdet_head (cutdet_word_then safe_read
    (cutdet_wsDash (cutdet_word_then safe_file
      (cutdet_wsDash (cutdet_pplusG isFnameCh_rbrace cutdet_wsClose)))))

theorem aclean_altPush : AClean altPush :=
  aclean_head (aclean_word_then safe_push
    (aclean_wsDash (aclean_word_then safe_update
      (aclean_wsDash (aclean_pplusG isFnameCh_rbrace
        (aclean_wsG (aclean_pthen (clean_pchE colon_ne_rbrace)
          (aclean_pstarG pySpace_rbrace aclean_pScanClose))))))))

theorem cutdet_altPush : CutDet altPush :=
  cutdet_head (cutdet_word_then safe_push
    (cutdet_wsDash (cutdet_word_then safe_update
      (cutdet_wsDash (cutdet_pplusG isFnameCh_rbrace
        (cutdet_wsG (cutdet_pthen (cutdet_pchE ':')
          (clean_pchE colon_ne_rbrace)
          (cutdet_pstarG pySpace_rbrace cutdet_pScanClose))))))))

theorem aclean_altEntryDelete : AClean altEntryDelete :=
  aclean_pthen (clean_pchE lbrace_ne_rbrace)
    (aclean_pstarG isSCh_rbrace (aclean_pplusG isFnameCh_rbrace
      (aclean_wsDash (aclean_word_then safe_entry
        (aclean_wsDash (aclean_pplusG isDigitCh_rbrace
          (aclean_wsDash (aclean_word_then safe_delete aclean_wsClose))))))))

theorem cutdet_altEntryDelete : CutDet altEntryDelete :=
  cutdet_pthen (cutdet_pchE lbrace) (clean_pchE lbrace_ne_rbrace)
    (cutdet_pstarG isSCh_rbrace (cutdet_pplusG isFnameCh_rbrace
      (cutdet_wsDash (cutdet_word_then safe_entry
        (cutdet_wsDash (cutdet_pplusG isDigitCh_rbrace
          (cutdet_wsDash (cutdet_word_then safe_delete cutdet_wsClose))))))))

theorem aclean_altCreateFile : AClean altCreateFile :=
  aclean_head (aclean_word_then safe_create
    (aclean_wsDash (aclean_word_then safe_file
      (aclean_wsDash (aclean_pplusG isFnameCh_rbrace aclean_wsClose)))))

theorem cutdet_altCreateFile : CutDet altCreateFile :=
  cutdet_head (cutdet_word_then safe_create
    (cutdet_wsDash (cutdet_word_then safe_file
      (cutdet_wsDash (cutdet_pplusG isFnameCh_rbrace cutdet_wsClose)))))

theorem aclean_altDeleteFile : AClean altDeleteFile :=
  aclean_head (aclean_word_then safe_delete
    (aclean_wsDash (aclean_word_then safe_file
      (aclean_wsDash (aclean_pplusG isFnameCh_rbrace aclean_wsClose)))))

theorem cutdet_altDeleteFile : CutDet altDeleteFile :=
  cutdet_head (cutdet_word_then safe_delete
    (cutdet_wsDash (cutdet_word_then safe_file
      (cutdet_wsDash (cutdet_pplusG isFnameCh_rbrace cutdet_wsClose)))))

theorem aclean_altPingUser : AClean altPingUser :=
  aclean_head (aclean_word_then safe_ping aclean_wsClose)

theorem cutdet_altPingUser : CutDet altPingUser :=
  cutdet_head (cutdet_word_then safe_ping cutdet_wsClose)

theorem aclean_unionPat {nm : List Char} (hnm : BraceSafe nm) :
    AClean (unionPat nm) :=
  aclean_porelse aclean_altThinking (aclean_porelse (aclean_altSays hnm)
    (aclean_porelse (aclean_altSelfPrompt hnm) (aclean_porelse
      aclean_altReadFile (aclean_porelse aclean_altPush (aclean_porelse
        aclean_altEntryDelete (aclean_porelse aclean_altCreateFile
          (aclean_porelse aclean_altDeleteFile aclean_altPingUser)))))))

theorem cutdet_unionPat {nm : List Char} (hnm : BraceSafe nm) :
    CutDet (unionPat nm) :=
  cutdet_porelse cutdet_altThinking (cutdet_porelse (cutdet_altSays hnm)
    (cutdet_porelse (cutdet_altSelfPrompt hnm) (cutdet_porelse
      cutdet_altReadFile (cutdet_porelse cutdet_altPush (cutdet_porelse
        cutdet_altEntryDelete (cutdet_porelse cutdet_altCreateFile
          (cutdet_porelse cutdet_altDeleteFile cutdet_altPingUser)))))))

/-! ## Idempotence of sanitization -/

theorem cut_append_rbrace {A : List Char} (hA : rbrace ∉ A) (t : List Char) :
    cut (A ++ rbrace :: t) = A ++ [rbrace] := by
  induction A with
  | nil => simp [cut]
  | cons a A ih =>
    have ha : a ≠ rbrace := fun h => hA (h ▸ List.mem_cons_self _ _)
    have hA' : rbrace ∉ A := fun h => hA (List.mem_cons_of_mem _ h)
    simp only [List.cons_append, cut]
    rw [if_neg (by simpa using ha)]
    show a :: cut (A ++ rbrace :: t) = a :: (A ++ [rbrace])
    rw [ih hA']

theorem goodBlock_cut {u : P} {b : List Char} (hb : GoodBlock u b)
    (t : List Char) : cut (b ++ t) = b := by
  obtain ⟨h1, _, h3, h4⟩ := hb
  calc cut (b ++ t) = cut (b.take (b.length - 1) ++ rbrace :: t) := by
        rw [← h3]; simp
    _ = b.take (b.length - 1) ++ [rbrace] := cut_append_rbrace h4 t
    _ = b := h3

theorem goodBlock_cut_self {u : P} {b : List Char} (hb : GoodBlock u b) :
    cut b = b := by
  have := goodBlock_cut hb []
  simpa using this

theorem goodBlock_of_match {u : P} (hu : AClean u) (hd : CutDet u)
    {s : List Char} {n : Nat} (h : u s = some n) : GoodBlock u (s.take n) := by
  obtain ⟨h1, h2, h3, h4⟩ := hu s n h
  have hblen : (s.take n).length = n := by
    rw [List.length_take]; omega
  have hbtake : (s.take n).take (n - 1) = s.take (n - 1) := by
    rw [List.take_take]
    congr 1
    omega
  have hshape : (s.take n).take ((s.take n).length - 1) ++ [rbrace] = s.take n := by
    rw [hblen, hbtake, ← h3]
  have hsplit : s = s.take (n - 1) ++ rbrace :: s.drop n := by
    conv_lhs => rw [← List.take_append_drop n s, h3]
    simp
  have hcuts : cut s = s.take n := by
    conv_lhs => rw [hsplit]
    rw [cut_append_rbrace h4, ← h3]
  have hcutb : cut (s.take n) = s.take n := by
    rw [h3]
    have hsing : s.take (n - 1) ++ [rbrace] = s.take (n - 1) ++ rbrace :: [] := by
      simp
    rw [hsing, cut_append_rbrace h4]
  refine ⟨by omega, ?_, hshape, by rw [hblen, hbtake]; exact h4⟩
  rw [hblen, hd (s.take n) s (by rw [hcuts, hcutb]), h]

theorem findAllFuel_good {u : P} (hu : AClean u) (hd : CutDet u) :
    ∀ (fuel : Nat) (s : List Char), s.length ≤ fuel →
      ∀ b ∈ findAllFuel u fuel s, GoodBlock u b := by
  intro fuel
  induction fuel with
  | zero => intro s _ b hb; simp [findAllFuel] at hb
  | succ fuel ih =>
    intro s hlen b hb
    cases s with
    | nil => simp [findAllFuel] at hb
    | cons c cs =>
      simp only [findAllFuel] at hb
      split at hb
      · rename_i n heq
        rcases List.mem_cons.mp hb with rfl | hb
        · exact goodBlock_of_match hu hd heq
        · have hn := hu _ n heq
          refine ih (cs.drop (n - 1)) ?_ b hb
          rw [List.length_drop]
          simp only [List.length_cons] at hlen
          omega
      · refine ih cs ?_ b hb
        simp only [List.length_cons] at hlen
        omega

theorem findAllFuel_concat {u : P} (hd : CutDet u) :
    ∀ (L : List (List Char)) (fuel : Nat), (∀ b ∈ L, GoodBlock u b) →
      L.flatten.length ≤ fuel → findAllFuel u fuel L.flatten = L := by
  intro L
  induction L with
  | nil =>
    intro fuel _ _
    cases fuel <;> simp [findAllFuel]
  | cons b L ih =>
    intro fuel hgood hlen
    have hb := hgood b (List.mem_cons_self _ _)
    have hb1 := hb.1
    have hb2 := hb.2.1
    have hcut : cut (b ++ L.flatten) = cut b := by
      rw [goodBlock_cut hb, goodBlock_cut_self hb]
    have hub : u (b ++ L.flatten) = some b.length := by
      rw [hd _ _ hcut, hb2]
    cases hbe : b with
    | nil => rw [hbe] at hb1; simp at hb1
    | cons x bt =>
      subst hbe
      simp only [List.flatten_cons] at hlen ⊢
      cases fuel with
      | zero =>
        exfalso
        simp only [List.length_append, List.length_cons] at hlen
        omega
      | succ f =>
        have hub' : u (x :: (bt ++ L.flatten)) = some (bt.length + 1) := by
          rw [← List.cons_append, hub]
          simp
        have hlen' : L.flatten.length ≤ f := by
          simp only [List.length_append, List.length_cons] at hlen
          omega
        have hrec := ih f (fun b' hb' => hgood b' (List.mem_cons_of_mem _ hb')) hlen'
        show findAllFuel u (f + 1) ((x :: bt) ++ L.flatten) = (x :: bt) :: L
        simp only [List.cons_append, findAllFuel]
        split
        · rename_i n heq
          simp only [List.append_eq] at heq ⊢
          rw [hub'] at heq
          cases heq
          have ht : (x :: (bt ++ L.flatten)).take (bt.length + 1) = x :: bt := by
            simp only [List.take_succ_cons]
            rw [List.take_left]
          have hdr : (bt ++ L.flatten).drop (bt.length + 1 - 1) = L.flatten := by
            simp only [Nat.add_sub_cancel]
            exact List.drop_left _ _
          rw [ht, hdr, hrec]
        · rename_i heq
          simp only [List.append_eq] at heq
          rw [heq] at hub'
          exact Option.noConfusion hub'

/-- C3: sanitization is idempotent — extracting all grammar-matching
blocks and concatenating them is a fixed point on its own output, for
every raw text and every brace-safe agent name. -/
theorem C3_sanitize_idempotent (nm : List Char) (hnm : BraceSafe nm)
    (x : List Char) : sanitize nm (sanitize nm x) = sanitize nm x := by
  unfold sanitize findAll
  rw [findAllFuel_concat (cutdet_unionPat hnm) _ _
    (findAllFuel_good (aclean_unionPat hnm) (cutdet_unionPat hnm)
      x.length x (le_refl _)) (le_refl _)]

/-- Witness for C3 at the default agent name and a concrete raw text. -/
theorem C3_witness :
    BraceSafe ("Agent".data) ∧
      sanitize ("Agent".data)
          (sanitize ("Agent".data)
            ("junk \x7bthinking: plan\x7d noise \x7bAgent-says: hi\x7d \x7bself-prompt-from-Agent: next step\x7d tail".data)) =
        sanitize ("Agent".data)
          ("junk \x7bthinking: plan\x7d noise \x7bAgent-says: hi\x7d \x7bself-prompt-from-Agent: next step\x7d tail".data) :=
  ⟨by decide, C3_sanitize_idempotent _ (by decide) _⟩

/-! ## Claims C7 and C8: memory consolidation -/

theorem numToConsolidate_le (cap : Nat) : numToConsolidate cap ≤ cap := by
  unfold numToConsolidate
  split <;> omega

theorem numToConsolidate_pos {cap : Nat} (h : 1 ≤ cap) :
    1 ≤ numToConsolidate cap := by
  unfold numToConsolidate
  split <;> omega

/-- C7: when the just-appended entry brings STM to its capacity and the
stage summarization succeeds, the STM → MTM cascade step removes exactly
the oldest `capacity / 2` entries (all of them when the capacity is
below 4) from the front of STM and appends exactly one new entry to MTM,
conserving entries; and with capacity 6, the sixth appended turn summary
triggers exactly one MTM consolidation removing the first three STM
entries. -/
theorem C7_stm_consolidation :
    (∀ (capStm : Nat) (s2 : List Char) (rest : List (List Char)) (mem : Memory),
      capStm ≤ mem.stm.length → s2 ≠ [] →
        (stmStage capStm (s2 :: rest) mem).1.stm =
            mem.stm.drop (if 4 ≤ capStm then capStm / 2 else capStm) ∧
          (stmStage capStm (s2 :: rest) mem).1.mtm = mem.mtm ++ [s2] ∧
          (stmStage capStm (s2 :: rest) mem).1.mtm.length = mem.mtm.length + 1 ∧
          mem.stm.length =
            (stmStage capStm (s2 :: rest) mem).1.stm.length +
              numToConsolidate capStm ∧
          (stmStage capStm (s2 :: rest) mem).1.ltm = mem.ltm) ∧
      ((handleMemoryConsolidation 6 6 6 [("e6".data), ("m1".data)] ("turn".data)
          { stm := [("e1".data), ("e2".data), ("e3".data), ("e4".data), ("e5".data)],
            mtm := [], ltm := [] }).1 =
        { stm := [("e4".data), ("e5".data), ("e6".data)],
          mtm := [("m1".data)], ltm := [] } ∧
       (handleMemoryConsolidation 6 6 6 [("e5".data)] ("turn".data)
          { stm := [("e1".data), ("e2".data), ("e3".data), ("e4".data)],
            mtm := [], ltm := [] }).1 =
        { stm := [("e1".data), ("e2".data), ("e3".data), ("e4".data), ("e5".data)],
          mtm := [], ltm := [] }) := by
  constructor
  · intro capStm s2 rest mem hcap hs
    have hstage : stmStage capStm (s2 :: rest) mem =
        (Memory.mk (mem.stm.drop (numToConsolidate capStm)) (mem.mtm ++ [s2])
          mem.ltm, rest) := by
      simp only [stmStage, popSum, if_pos hcap, if_neg hs, numToConsolidate]
    rw [hstage]
    refine ⟨rfl, rfl, by simp, ?_, rfl⟩
    show mem.stm.length =
      (mem.stm.drop (numToConsolidate capStm)).length + numToConsolidate capStm
    have h2 := numToConsolidate_le capStm
    simp only [List.length_drop]
    omega
  · exact ⟨by decide, by decide⟩

/-- Witness for C7: the cascade step at capacity 6 with a six-entry STM. -/
theorem C7_witness :
    (6 ≤ ([("e1".data), ("e2".data), ("e3".data), ("e4".data), ("e5".data),
        ("e6".data)] : List (List Char)).length ∧ ("m1".data) ≠ []) ∧
      ((stmStage 6 [("m1".data)]
          { stm := [("e1".data), ("e2".data), ("e3".data), ("e4".data),
              ("e5".data), ("e6".data)], mtm := [], ltm := [] }).1.stm =
          ([("e1".data), ("e2".data), ("e3".data), ("e4".data), ("e5".data),
            ("e6".data)] : List (List Char)).drop (if 4 ≤ 6 then 6 / 2 else 6) ∧
        (stmStage 6 [("m1".data)]
          { stm := [("e1".data), ("e2".data), ("e3".data), ("e4".data),
              ("e5".data), ("e6".data)], mtm := [], ltm := [] }).1.mtm =
          [] ++ [("m1".data)] ∧
        (stmStage 6 [("m1".data)]
          { stm := [("e1".data), ("e2".data), ("e3".data), ("e4".data),
              ("e5".data), ("e6".data)], mtm := [], ltm := [] }).1.mtm.length =
          ([] : List (List Char)).length + 1 ∧
        ([("e1".data), ("e2".data), ("e3".data), ("e4".data), ("e5".data),
          ("e6".data)] : List (List Char)).length =
          (stmStage 6 [("m1".data)]
            { stm := [("e1".data), ("e2".data), ("e3".data), ("e4".data),
                ("e5".data), ("e6".data)], mtm := [], ltm := [] }).1.stm.length +
            numToConsolidate 6 ∧
        (stmStage 6 [("m1".data)]
          { stm := [("e1".data), ("e2".data), ("e3".data), ("e4".data),
              ("e5".data), ("e6".data)], mtm := [], ltm := [] }).1.ltm = []) :=
  ⟨⟨by decide, by decide⟩,
    C7_stm_consolidation.1 6 (("m1".data)) [] _ (by decide) (by decide)⟩

/-- C8: when LTM has reached its (positive) capacity and the compaction
summarization succeeds, LTM becomes the remaining entries followed by
the one new entry: its length is the remaining count plus one, at most
the previous length, and at least one — compaction never fully empties
LTM. -/
theorem C8_ltm_compaction (capLtm : Nat) (s4 : List Char)
    (rest : List (List Char)) (mem : Memory) (hpos : 1 ≤ capLtm)
    (hcap : capLtm ≤ mem.ltm.length) (hs : s4 ≠ []) :
    (ltmStage capLtm (s4 :: rest) mem).1.ltm =
        mem.ltm.drop (numToConsolidate capLtm) ++ [s4] ∧
      (ltmStage capLtm (s4 :: rest) mem).1.ltm.length =
        (mem.ltm.drop (numToConsolidate capLtm)).length + 1 ∧
      (ltmStage capLtm (s4 :: rest) mem).1.ltm.length ≤ mem.ltm.length ∧
      1 ≤ (ltmStage capLtm (s4 :: rest) mem).1.ltm.length := by
  have hnum := numToConsolidate_pos hpos
  have hle := numToConsolidate_le capLtm
  have hstage : ltmStage capLtm (s4 :: rest) mem =
      (Memory.mk mem.stm mem.mtm
        (mem.ltm.drop (numToConsolidate capLtm) ++ [s4]), rest) := by
    simp only [ltmStage, popSum, if_pos hcap, if_neg hs]
  rw [hstage]
  refine ⟨rfl, by simp, ?_, by simp⟩
  show (mem.ltm.drop (numToConsolidate capLtm) ++ [s4]).length ≤ mem.ltm.length
  simp only [List.length_append, List.length_drop, List.length_cons,
    List.length_nil]
  omega

/-- Witness for C8 at capacity 6 with a six-entry LTM. -/
theorem C8_witness :
    (1 ≤ 6 ∧
      6 ≤ ([("l1".data), ("l2".data), ("l3".data), ("l4".data), ("l5".data),
        ("l6".data)] : List (List Char)).length ∧ ("z".data) ≠ []) ∧
      ((ltmStage 6 [("z".data)]
          { stm := [], mtm := [],
            ltm := [("l1".data), ("l2".data), ("l3".data), ("l4".data),
              ("l5".data), ("l6".data)] }).1.ltm =
          ([("l1".data), ("l2".data), ("l3".data), ("l4".data), ("l5".data),
            ("l6".data)] : List (List Char)).drop (numToConsolidate 6) ++
            [("z".data)] ∧
        (ltmStage 6 [("z".data)]
          { stm := [], mtm := [],
            ltm := [("l1".data), ("l2".data), ("l3".data), ("l4".data),
              ("l5".data), ("l6".data)] }).1.ltm.length =
          (([("l1".data), ("l2".data), ("l3".data), ("l4".data), ("l5".data),
            ("l6".data)] : List (List Char)).drop (numToConsolidate 6)).length + 1 ∧
        (ltmStage 6 [("z".data)]
          { stm := [], mtm := [],
            ltm := [("l1".data), ("l2".data), ("l3".data), ("l4".data),
              ("l5".data), ("l6".data)] }).1.ltm.length ≤
          ([("l1".data), ("l2".data), ("l3".data), ("l4".data), ("l5".data),
            ("l6".data)] : List (List Char)).length ∧
        1 ≤ (ltmStage 6 [("z".data)]
          { stm := [], mtm := [],
            ltm := [("l1".data), ("l2".data), ("l3".data), ("l4".data),
              ("l5".data), ("l6".data)] }).1.ltm.length) :=
  ⟨⟨by decide, by decide, by decide⟩,
    C8_ltm_compaction 6 (("z".data)) [] _ (by decide) (by decide) (by decide)⟩

/-! ## Claim C9: the trigger predicate -/

/-- C9 (amended): the trigger predicate is true exactly when the
forced-turn flag is set, or pending user messages exist, or auto-turn is
enabled and the elapsed time since last activity is strictly greater
than the configured interval and the user is neither offline nor
typing. -/
theorem C9_trigger_iff (cfg : Config) (st : EngineState) (now : ℚ) :
    shouldTriggerTurn cfg st now = true ↔
      (st.forceNextTurn = true ∨ st.pendingUserMessages ≠ [] ∨
        (st.autoTurnEnabled = true ∧
          cfg.autoTurnInterval < now - st.lastActivityTimestamp ∧
          st.userStatus ≠ ("offline".data) ∧ st.userIsTyping = false)) := by
  unfold shouldTriggerTurn
  by_cases hf : st.forceNextTurn
  · simp [hf]
  · simp only [if_neg hf, Bool.or_eq_true, Bool.and_eq_true,
      Bool.not_eq_true', decide_eq_true_eq, List.isEmpty_eq_false,
      beq_eq_false_iff_ne, ne_eq]
    constructor
    · rintro (h | ⟨⟨⟨h1, h2⟩, h3⟩, h4⟩)
      · exact Or.inr (Or.inl h)
      · exact Or.inr (Or.inr ⟨h1, h2, h3, h4⟩)
    · rintro (h | h | ⟨h1, h2, h3, h4⟩)
      · exact absurd h (by simpa using hf)
      · exact Or.inl h
      · exact Or.inr ⟨⟨⟨h1, h2⟩, h3⟩, h4⟩

/-- Counterexample for C9 as stated: with the elapsed time exactly equal
to the configured interval (and every other auto-turn condition met, no
force flag, no pending input), the code does not trigger, though the
claimed `≥` comparison would. -/
theorem C9_counterexample :
    shouldTriggerTurn cfg0 { st0 with autoTurnEnabled := true } 60 = false ∧
      ({ st0 with autoTurnEnabled := true } : EngineState).forceNextTurn = false ∧
      ({ st0 with autoTurnEnabled := true } : EngineState).pendingUserMessages = [] ∧
      ({ st0 with autoTurnEnabled := true } : EngineState).autoTurnEnabled = true ∧
      cfg0.autoTurnInterval ≤
        (60 : ℚ) - ({ st0 with autoTurnEnabled := true } : EngineState).lastActivityTimestamp ∧
      ({ st0 with autoTurnEnabled := true } : EngineState).userStatus ≠ ("offline".data) ∧
      ({ st0 with autoTurnEnabled := true } : EngineState).userIsTyping = false := by
  have h60 : ¬((60 : ℚ) < 60 - 0) := by norm_num
  refine ⟨?_, by decide, by decide, by decide, ?_, by decide, by decide⟩
  · show shouldTriggerTurn cfg0 { st0 with autoTurnEnabled := true } 60 = false
    unfold shouldTriggerTurn cfg0 st0
    simp [h60]
  · show cfg0.autoTurnInterval ≤ (60 : ℚ) - st0.lastActivityTimestamp
    unfold cfg0 st0
    norm_num

/-! ## Claim C10: the self-prompt list after a valid response -/

theorem executeAgentCommand_selfPrompts (cfg : Config) (st : EngineState)
    (c : List Char) :
    (executeAgentCommand cfg st c).currentSelfPrompts = st.currentSelfPrompts := by
  unfold executeAgentCommand
  dsimp only
  split
  · rfl
  · split
    · rfl
    · split
      · split <;> rfl
      · rfl

theorem foldl_exec_selfPrompts (cfg : Config) :
    ∀ (l : List (List Char)) (st : EngineState),
      (l.foldl (fun s c => executeAgentCommand cfg s (pyStrip c)) st).currentSelfPrompts =
        st.currentSelfPrompts := by
  intro l
  induction l with
  | nil => intro st; rfl
  | cons c l ih =>
    intro st
    simp only [List.foldl_cons]
    rw [ih, executeAgentCommand_selfPrompts]

theorem foldl_chat_selfPrompts (cfg : Config) :
    ∀ (l : List (List Char)) (st : EngineState),
      (l.foldl (fun s t =>
        { s with
          recentChatLog := ringAppend cfg.chatLogLength s.recentChatLog
            (cfg.agentName ++ (": ".data) ++ t),
          outbox := s.outbox ++ [GuiEvent.newMessage] }) st).currentSelfPrompts =
        st.currentSelfPrompts := by
  intro l
  induction l with
  | nil => intro st; rfl
  | cons c l ih =>
    intro st
    simp only [List.foldl_cons]
    rw [ih]

theorem processValidResponse_selfPrompts (cfg : Config) (st : EngineState)
    (sanitized : List Char) :
    (processValidResponse cfg st sanitized).1.currentSelfPrompts =
      newSelfPrompts cfg.agentName cfg.fallbackSelfPrompt sanitized := by
  unfold processValidResponse
  dsimp only
  rw [foldl_exec_selfPrompts]
  split
  · rw [foldl_chat_selfPrompts]
  · rw [foldl_chat_selfPrompts]

/-- C10: after processing a valid response, the current self-prompt list
is non-empty — it is the list of self-prompt blocks found in the
sanitized text when there is at least one, and otherwise the single
configured fallback self-prompt template. -/
theorem C10_self_prompts (cfg : Config) (st : EngineState)
    (sanitized : List Char) :
    (processValidResponse cfg st sanitized).1.currentSelfPrompts ≠ [] ∧
      (findAll (allSelfPromptsPat cfg.agentName) sanitized ≠ [] →
        (processValidResponse cfg st sanitized).1.currentSelfPrompts =
          findAll (allSelfPromptsPat cfg.agentName) sanitized) ∧
      (findAll (allSelfPromptsPat cfg.agentName) sanitized = [] →
        (processValidResponse cfg st sanitized).1.currentSelfPrompts =
          [cfg.fallbackSelfPrompt]) := by
  rw [processValidResponse_selfPrompts]
  unfold newSelfPrompts
  by_cases hp : findAll (allSelfPromptsPat cfg.agentName) sanitized = []
  · simp [hp]
  · have hneg : ¬((findAll (allSelfPromptsPat cfg.agentName) sanitized).isEmpty = true) := by
      simp [List.isEmpty_iff, hp]
    simp only [if_neg hneg]
    exact ⟨hp, fun _ => by trivial, fun h => absurd h hp⟩

/-! ## Claims C5 and C6: entry numbering and capacity of push-update -/

set_option maxRecDepth 4000 in
theorem tplPushCapacity_split :
    tplPushCapacity = tplPushCapacityPre ++ phCURRENT ++ tplPushCapacitySuf := by
  decide

theorem foldl_max_le_init : ∀ (l : List Nat) (a : Nat), a ≤ l.foldl max a := by
  intro l
  induction l with
  | nil => intro a; exact le_refl a
  | cons x xs ih =>
    intro a
    exact le_trans (Nat.le_max_left a x) (ih (max a x))

theorem mem_le_foldl_max :
    ∀ (l : List Nat) (a k : Nat), k ∈ l → k ≤ l.foldl max a := by
  intro l
  induction l with
  | nil => intro a k hk; simp at hk
  | cons x xs ih =>
    intro a k hk
    rcases List.mem_cons.mp hk with rfl | hk
    · exact le_trans (Nat.le_max_right a k) (foldl_max_le_init xs (max a k))
    · exact ih (max a x) k hk

theorem foldl_max_mem :
    ∀ (l : List Nat) (a : Nat), l.foldl max a ∈ l ∨ l.foldl max a = a := by
  intro l
  induction l with
  | nil => intro a; exact Or.inr rfl
  | cons x xs ih =>
    intro a
    rcases ih (max a x) with h | h
    · exact Or.inl (List.mem_cons_of_mem _ h)
    · rcases max_choice a x with hm | hm
      · rw [List.foldl_cons, h, hm]
        exact Or.inr rfl
      · rw [List.foldl_cons, h, hm]
        exact Or.inl (List.mem_cons_self _ _)

theorem isPrefixOf_nil_false {old : List Char} (h : old ≠ []) :
    old.isPrefixOf ([] : List Char) = false := by
  cases old with
  | nil => exact absurd rfl h
  | cons c cs => rfl

theorem replaceAllFuel_congr {old new : List Char} (hold : old ≠ []) :
    ∀ (f1 : Nat) (f2 : Nat) (s : List Char), s.length ≤ f1 → s.length ≤ f2 →
      replaceAllFuel old new f1 s = replaceAllFuel old new f2 s := by
  have holdlen : 1 ≤ old.length := by
    cases old with
    | nil => exact absurd rfl hold
    | cons _ _ => simp
  intro f1
  induction f1 with
  | zero =>
    intro f2 s h1 _
    have hs : s = [] := by
      cases s with
      | nil => rfl
      | cons c cs => simp at h1
    subst hs
    cases f2 <;> rfl
  | succ f1 ih =>
    intro f2 s h1 h2
    cases s with
    | nil => cases f2 <;> rfl
    | cons c cs =>
      cases f2 with
      | zero => simp at h2
      | succ f2 =>
        simp only [replaceAllFuel]
        split
        · rename_i hpre
          congr 1
          refine ih f2 ((c :: cs).drop old.length) ?_ ?_
          · rw [List.length_drop]
            simp only [List.length_cons] at h1 ⊢
            omega
          · rw [List.length_drop]
            simp only [List.length_cons] at h2 ⊢
            omega
        · congr 1
          refine ih f2 cs ?_ ?_
          · simp only [List.length_cons] at h1; omega
          · simp only [List.length_cons] at h2; omega

theorem replaceAllFuel_no_occ {old new : List Char} :
    ∀ (fuel : Nat) (s : List Char),
      (∀ i, ¬ old.isPrefixOf (s.drop i) = true) →
      replaceAllFuel old new fuel s = s := by
  intro fuel
  induction fuel with
  | zero => intro s _; rfl
  | succ fuel ih =>
    intro s hno
    cases s with
    | nil => rfl
    | cons c cs =>
      simp only [replaceAllFuel]
      split
      · rename_i hpre
        exact absurd (by simpa using hpre.2) (hno 0)
      · congr 1
        exact ih cs (fun i => by simpa using hno (i + 1))

theorem replaceAllFuel_confined {old new : List Char} (hold : old ≠ []) :
    ∀ (fuel : Nat) (A t : List Char), (A ++ t).length ≤ fuel →
      (∀ i, old.isPrefixOf ((A ++ t).drop i) = true →
        i + old.length ≤ A.length) →
      replaceAllFuel old new fuel (A ++ t) =
        replaceAllFuel old new A.length A ++ t := by
  have holdlen : 1 ≤ old.length := by
    cases old with
    | nil => exact absurd rfl hold
    | cons _ _ => simp
  intro fuel
  induction fuel with
  | zero =>
    intro A t hlen _
    have hA : A = [] := by
      cases A with
      | nil => rfl
      | cons a A' => simp at hlen
    have ht : t = [] := by
      cases t with
      | nil => rfl
      | cons c cs => rw [hA] at hlen; simp at hlen
    subst hA; subst ht; rfl
  | succ fuel ih =>
    intro A t hlen hconf
    cases A with
    | nil =>
      have hno : ∀ i, ¬ old.isPrefixOf (t.drop i) = true := by
        intro i hi
        have := hconf i (by simpa using hi)
        simp only [List.length_nil] at this
        omega
      show replaceAllFuel old new (fuel + 1) t = replaceAllFuel old new 0 [] ++ t
      rw [replaceAllFuel_no_occ _ t hno]
      rfl
    | cons a A' =>
      by_cases hpre : old.isPrefixOf ((a :: A') ++ t) = true
      · have hpre' : old <+: ((a :: A') ++ t) := List.isPrefixOf_iff_prefix.mp hpre
        have hfit : old.length ≤ (a :: A').length := by
          have := hconf 0 (by simpa using hpre)
          omega
        have htake : ((a :: A') ++ t).take old.length = (a :: A').take old.length := by
          rw [List.take_append_eq_append_take, Nat.sub_eq_zero_of_le hfit,
            List.take_zero, List.append_nil]
        have hpreA : old <+: (a :: A') := by
          rw [List.prefix_iff_eq_take, ← htake]
          exact List.prefix_iff_eq_take.mp hpre'
        have hpreAb : old.isPrefixOf (a :: A') = true :=
          List.isPrefixOf_iff_prefix.mpr hpreA
        have hdropA : ((a :: A') ++ t).drop old.length =
            (a :: A').drop old.length ++ t := by
          rw [List.drop_append_eq_append_drop, Nat.sub_eq_zero_of_le hfit,
            List.drop_zero]
        have hconf2 : ∀ i,
            old.isPrefixOf (((a :: A').drop old.length ++ t).drop i) = true →
              i + old.length ≤ ((a :: A').drop old.length).length := by
          intro i hi
          rw [← hdropA, List.drop_drop] at hi
          have := hconf (old.length + i) hi
          rw [List.length_drop]
          simp only [List.length_cons] at this ⊢
          omega
        have hlen2 : ((a :: A').drop old.length ++ t).length ≤ fuel := by
          rw [List.length_append, List.length_drop]
          simp only [List.length_append, List.length_cons] at hlen
          simp only [List.length_cons]
          omega
        have hLHS : replaceAllFuel old new (fuel + 1) ((a :: A') ++ t) =
            new ++ (replaceAllFuel old new ((a :: A').drop old.length).length
              ((a :: A').drop old.length) ++ t) := by
          show replaceAllFuel old new (fuel + 1) (a :: (A' ++ t)) = _
          simp only [replaceAllFuel]
          rw [if_pos ⟨hold, (hpre : old.isPrefixOf (a :: (A' ++ t)) = true)⟩]
          congr 1
          have hd2 : (a :: (A' ++ t)).drop old.length =
              (a :: A').drop old.length ++ t := hdropA
          rw [hd2]
          exact ih _ _ hlen2 hconf2
        have hRHS : replaceAllFuel old new (a :: A').length (a :: A') =
            new ++ replaceAllFuel old new ((a :: A').drop old.length).length
              ((a :: A').drop old.length) := by
          show replaceAllFuel old new (A'.length + 1) (a :: A') = _
          simp only [replaceAllFuel]
          rw [if_pos ⟨hold, hpreAb⟩]
          congr 1
          refine replaceAllFuel_congr hold _ _ _ ?_ (le_refl _)
          rw [List.length_drop]
          simp only [List.length_cons]
          omega
        rw [hLHS, hRHS, List.append_assoc]
      · have hpreA : ¬ old.isPrefixOf (a :: A') = true := fun hp =>
          hpre (List.isPrefixOf_iff_prefix.mpr
            ((List.isPrefixOf_iff_prefix.mp hp).trans (List.prefix_append _ t)))
        have hconf2 : ∀ i, old.isPrefixOf ((A' ++ t).drop i) = true →
            i + old.length ≤ A'.length := by
          intro i hi
          have := hconf (i + 1)
            (by simpa [List.cons_append, List.drop_succ_cons] using hi)
          simp only [List.length_cons] at this
          omega
        have hlen2 : (A' ++ t).length ≤ fuel := by
          simp only [List.length_append, List.length_cons] at hlen ⊢
          omega
        have hLHS : replaceAllFuel old new (fuel + 1) ((a :: A') ++ t) =
            a :: (replaceAllFuel old new A'.length A' ++ t) := by
          show replaceAllFuel old new (fuel + 1) (a :: (A' ++ t)) = _
          simp only [replaceAllFuel]
          rw [if_neg (fun hc =>
            hpre (hc.2 : old.isPrefixOf ((a :: A') ++ t) = true))]
          congr 1
          exact ih _ _ hlen2 hconf2
        have hRHS : replaceAllFuel old new (a :: A').length (a :: A') =
            a :: replaceAllFuel old new A'.length A' := by
          show replaceAllFuel old new (A'.length + 1) (a :: A') = _
          simp only [replaceAllFuel]
          rw [if_neg (fun hc => hpreA hc.2)]
        rw [hLHS, hRHS]
        rfl

theorem replaceAllFuel_infix {old new : List Char} (hold : old ≠ []) :
    ∀ (fuel : Nat) (s : List Char), s.length ≤ fuel →
      (∃ i, i < s.length ∧ old.isPrefixOf (s.drop i) = true) →
      ∃ pre post, replaceAllFuel old new fuel s = pre ++ new ++ post := by
  intro fuel
  induction fuel with
  | zero =>
    intro s hlen ⟨i, hi, _⟩
    omega
  | succ fuel ih =>
    intro s hlen hocc
    cases s with
    | nil =>
      rcases hocc with ⟨i, hi, _⟩
      simp at hi
    | cons c cs =>
      simp only [replaceAllFuel]
      by_cases hpre : old.isPrefixOf (c :: cs) = true
      · rw [if_pos ⟨hold, hpre⟩]
        exact ⟨[], replaceAllFuel old new fuel ((c :: cs).drop old.length),
          by simp⟩
      · rw [if_neg (fun hc => hpre hc.2)]
        rcases hocc with ⟨i, hi, hocc⟩
        cases i with
        | zero => exact absurd (by simpa using hocc) hpre
        | succ j =>
          have hocc' : old.isPrefixOf (cs.drop j) = true := by
            simpa [List.drop_succ_cons] using hocc
          have hlen' : cs.length ≤ fuel := by
            simp only [List.length_cons] at hlen; omega
          have hj : j < cs.length := by
            simp only [List.length_cons] at hi; omega
          rcases ih cs hlen' ⟨j, hj, hocc'⟩ with ⟨pre, post, heq⟩
          exact ⟨c :: pre, post, by rw [heq]; rfl⟩

set_option maxRecDepth 40000 in
/-- In the result of replacing the filename placeholder in the capacity
template, the current-content placeholder still occurs (the template's
filename occurrences all lie before it). -/
theorem capacity_current_occurs (filename : List Char) :
    replaceAll tplPushCapacity phFILENAME filename =
      replaceAll tplPushCapacityPre phFILENAME filename ++
        (phCURRENT ++ tplPushCapacitySuf) := by
  have hold : phFILENAME ≠ [] := by decide
  have hb : ∀ i < tplPushCapacity.length,
      phFILENAME.isPrefixOf (tplPushCapacity.drop i) = true →
        i + phFILENAME.length ≤ tplPushCapacityPre.length := by decide
  have hsplit : tplPushCapacity =
      tplPushCapacityPre ++ (phCURRENT ++ tplPushCapacitySuf) := by
    rw [tplPushCapacity_split, List.append_assoc]
  have hconf : ∀ i,
      phFILENAME.isPrefixOf
        ((tplPushCapacityPre ++ (phCURRENT ++ tplPushCapacitySuf)).drop i) = true →
        i + phFILENAME.length ≤ tplPushCapacityPre.length := by
    intro i hi
    rw [← hsplit] at hi
    by_cases hlt : i < tplPushCapacity.length
    · exact hb i hlt hi
    · rw [List.drop_eq_nil_of_le (by omega)] at hi
      rw [isPrefixOf_nil_false hold] at hi
      exact absurd hi (by simp)
  unfold replaceAll
  conv_lhs => rw [hsplit]
  rw [replaceAllFuel_confined hold _ _ _ (by rw [← hsplit]) hconf]

set_option maxRecDepth 40000 in
/-- C6: a push-update to an existing `.txt` file whose effective content
plus the new entry string exceeds the configured max character count
returns the capacity-exceeded feedback — the capacity template with the
current (raw) content substituted in, which it therefore embeds — and
leaves the file store unchanged. -/
theorem C6_capacity_refusal (maxChars : Nat) (fs : FileStore)
    (filename raw add : List Char)
    (hvalid : isValidFilename filename = true)
    (hlook : fsLookup fs filename = some raw)
    (hext : pyLower (splitExtTail filename) = (".txt".data))
    (hcap : maxChars <
      (contentForCalc raw).length +
        (newEntryString (nextEntryNum (contentForCalc raw)) add).length) :
    handlePushCommand maxChars fs filename add =
      (replaceAll (replaceAll tplPushCapacity phFILENAME filename)
          phCURRENT raw, fs) ∧
      ∃ pre post,
        (handlePushCommand maxChars fs filename add).1 = pre ++ raw ++ post := by
  have hsec : getSecurePath filename = some filename := by
    unfold getSecurePath
    rw [if_pos hvalid]
  have hpush : pushTxtUpdate maxChars filename raw add =
      (replaceAll (replaceAll tplPushCapacity phFILENAME filename)
        phCURRENT raw, none) := by
    unfold pushTxtUpdate
    rw [if_pos hcap]
  have hmain : handlePushCommand maxChars fs filename add =
      (replaceAll (replaceAll tplPushCapacity phFILENAME filename)
        phCURRENT raw, fs) := by
    unfold handlePushCommand
    rw [hsec]
    dsimp only
    rw [hlook]
    dsimp only
    rw [if_neg (not_not_intro hext), hpush]
  refine ⟨hmain, ?_⟩
  rw [hmain]
  show ∃ pre post,
    replaceAll (replaceAll tplPushCapacity phFILENAME filename) phCURRENT raw =
      pre ++ raw ++ post
  rw [capacity_current_occurs]
  apply replaceAllFuel_infix (by decide) _ _ (le_refl _)
  refine ⟨(replaceAll tplPushCapacityPre phFILENAME filename).length, ?_, ?_⟩
  · have hph : 1 ≤ phCURRENT.length := by decide
    simp only [List.length_append]
    omega
  · rw [List.drop_left]
    exact List.isPrefixOf_iff_prefix.mpr (List.prefix_append _ _)

/-- Witness for C6: pushing to a nearly-full notes file with a tiny
capacity limit. -/
theorem C6_witness :
    (isValidFilename notesName = true ∧
      fsLookup [(notesName, contentEntries123)] notesName =
        some contentEntries123 ∧
      pyLower (splitExtTail notesName) = (".txt".data) ∧
      10 < (contentForCalc contentEntries123).length +
        (newEntryString (nextEntryNum (contentForCalc contentEntries123))
          ("x".data)).length) ∧
      handlePushCommand 10 [(notesName, contentEntries123)] notesName
          (("x".data)) =
        (replaceAll (replaceAll tplPushCapacity phFILENAME notesName)
            phCURRENT contentEntries123, [(notesName, contentEntries123)]) :=
  ⟨⟨by decide, by decide, by decide, by decide⟩,
    (C6_capacity_refusal 10 [(notesName, contentEntries123)] notesName
      contentEntries123 (("x".data)) (by decide) (by decide) (by decide)
      (by decide)).1⟩

/-- C5 (amended): a successful push to a `.txt` file assigns the entry
number `max existing entry number + 1` (`1` when the content holds no
entries) — a number strictly greater than every entry number currently
present — and reports it in the success feedback; deleting entry 2 of a
file holding entries 1, 2, 3 and pushing yields entry 4.  (Deleted
numbers below the current maximum are never reused, but deleting the
highest-numbered entry lowers the next assigned number, so numbers are
not strictly increasing across the file's whole lifetime.) -/
theorem C5_entry_numbering :
    (∀ (maxChars : Nat) (filename raw add : List Char),
      (contentForCalc raw).length +
          (newEntryString (nextEntryNum (contentForCalc raw)) add).length ≤
            maxChars →
      pushTxtUpdate maxChars filename raw add =
        (replaceAll (replaceAll tplPushSuccess phFILENAME filename) phENTRY
            (natDigits (nextEntryNum (contentForCalc raw))),
          some (if (contentForCalc raw).isEmpty then
              newEntryString (nextEntryNum (contentForCalc raw)) add
            else contentForCalc raw ++
              '\n' :: newEntryString (nextEntryNum (contentForCalc raw)) add))) ∧
      (∀ raw, entryNums (contentForCalc raw) = [] →
        nextEntryNum (contentForCalc raw) = 1) ∧
      (∀ raw, entryNums (contentForCalc raw) ≠ [] →
        nextEntryNum (contentForCalc raw) =
            (entryNums (contentForCalc raw)).foldl max 0 + 1 ∧
          (entryNums (contentForCalc raw)).foldl max 0 ∈
            entryNums (contentForCalc raw)) ∧
      (∀ raw k, k ∈ entryNums (contentForCalc raw) →
        k < nextEntryNum (contentForCalc raw)) ∧
      (handlePushCommand 500
          (handleDeleteEntryCommand [(notesName, contentEntries123)]
            notesName 2).2 notesName (("d".data))).1 =
        replaceAll (replaceAll tplPushSuccess phFILENAME notesName) phENTRY
          (("4".data)) := by
  refine ⟨?_, ?_, ?_, ?_, by decide⟩
  · intro maxChars filename raw add hle
    unfold pushTxtUpdate
    rw [if_neg (by omega)]
  · intro raw hnil
    unfold nextEntryNum
    rw [hnil]
    rfl
  · intro raw hne
    have hie : ¬((entryNums (contentForCalc raw)).isEmpty = true) := by
      simpa [List.isEmpty_iff] using hne
    constructor
    · unfold nextEntryNum
      rw [if_neg hie]
    · rcases foldl_max_mem (entryNums (contentForCalc raw)) 0 with h | h
      · exact h
      · rcases List.exists_mem_of_ne_nil _ hne with ⟨k, hk⟩
        have hk0 : k ≤ 0 := h ▸ mem_le_foldl_max _ 0 k hk
        have : k = 0 := by omega
        rw [h, ← this]
        exact hk
  · intro raw k hk
    have hne : entryNums (contentForCalc raw) ≠ [] := by
      intro h
      rw [h] at hk
      simp at hk
    have hie : ¬((entryNums (contentForCalc raw)).isEmpty = true) := by
      simpa [List.isEmpty_iff] using hne
    have hle := mem_le_foldl_max (entryNums (contentForCalc raw)) 0 k hk
    unfold nextEntryNum
    rw [if_neg hie]
    omega

/-- Counterexample for C5 as stated: the file holds entries 1 and 2;
entry 2 (the maximum) is deleted, and the next push reassigns the very
number 2 — a deleted number is reused, so entry numbers are not strictly
increasing across the file's lifetime. -/
theorem C5_counterexample :
    2 ∈ entryNums (contentForCalc contentEntries12) ∧
      (handleDeleteEntryCommand [(notesName, contentEntries12)] notesName 2).1 =
        replaceAll (replaceAll tplDeleteEntrySuccess phENTRY (("2".data)))
          phFILENAME notesName ∧
      (handlePushCommand 500
          (handleDeleteEntryCommand [(notesName, contentEntries12)] notesName 2).2
          notesName (("c".data))).1 =
        replaceAll (replaceAll tplPushSuccess phFILENAME notesName) phENTRY
          (("2".data)) := by
  exact ⟨by decide, by decide, by decide⟩

/-- Witness for C5: a successful push to the two-entry notes file. -/
theorem C5_witness :
    ((contentForCalc contentEntries12).length +
        (newEntryString (nextEntryNum (contentForCalc contentEntries12))
          ("d".data)).length ≤ 500) ∧
      pushTxtUpdate 500 notesName contentEntries12 (("d".data)) =
        (replaceAll (replaceAll tplPushSuccess phFILENAME notesName) phENTRY
            (natDigits (nextEntryNum (contentForCalc contentEntries12))),
          some (if (contentForCalc contentEntries12).isEmpty then
              newEntryString (nextEntryNum (contentForCalc contentEntries12))
                ("d".data)
            else contentForCalc contentEntries12 ++
              '\n' :: newEntryString (nextEntryNum (contentForCalc contentEntries12))
                ("d".data))) :=
  ⟨by decide,
    C5_entry_numbering.1 500 notesName contentEntries12 (("d".data)) (by decide)⟩

/-! ## Claim C4: validation failure conditions and reasons -/

/-- C4 (amended): validation fails exactly when the raw output is empty,
or the first thinking match is absent or blank, or the first self-prompt
match is absent or blank, or block extraction yields nothing; each
failure returns the reason of the first violated check in that order,
and the four reasons are pairwise distinct.  (The code inspects only the
first match of each pattern, not whether any non-empty block exists.) -/
theorem C4_validation (nm raw : List Char) :
    (isOkE (parseAndValidateResponse nm raw) = false ↔
      (raw = [] ∨ thinkingMissingOrEmpty raw = true ∨
        selfPromptMissingOrEmpty nm raw = true ∨ sanitize nm raw = [])) ∧
      (parseAndValidateResponse nm raw = .error reasonEmpty ↔ raw = []) ∧
      (parseAndValidateResponse nm raw = .error reasonThinking ↔
        (raw ≠ [] ∧ thinkingMissingOrEmpty raw = true)) ∧
      (parseAndValidateResponse nm raw = .error (reasonSelfPrompt nm) ↔
        (raw ≠ [] ∧ thinkingMissingOrEmpty raw = false ∧
          selfPromptMissingOrEmpty nm raw = true)) ∧
      (parseAndValidateResponse nm raw = .error reasonNoBlocks ↔
        (raw ≠ [] ∧ thinkingMissingOrEmpty raw = false ∧
          selfPromptMissingOrEmpty nm raw = false ∧ sanitize nm raw = [])) := by
  have h1 : ("Required \x27\x7bself-prompt-from-".data).length = 28 := by decide
  have h2 : ("\x7d\x27 is missing or empty.".data).length = 23 := by decide
  have hlen : (reasonSelfPrompt nm).length = 51 + nm.length := by
    unfold reasonSelfPrompt
    rw [List.length_append, List.length_append, h1, h2]
    omega
  have hspne : ∀ o : List Char, o.length < 51 → ¬(reasonSelfPrompt nm = o) := by
    intro o ho h
    have hc := congrArg List.length h
    rw [hlen] at hc
    omega
  have hTE : reasonThinking ≠ reasonEmpty := by decide
  have hET : reasonEmpty ≠ reasonThinking := by decide
  have hNE : reasonNoBlocks ≠ reasonEmpty := by decide
  have hEN : reasonEmpty ≠ reasonNoBlocks := by decide
  have hNT : reasonNoBlocks ≠ reasonThinking := by decide
  have hTN : reasonThinking ≠ reasonNoBlocks := by decide
  have hSE : reasonSelfPrompt nm ≠ reasonEmpty := hspne _ (by decide)
  have hST : reasonSelfPrompt nm ≠ reasonThinking := hspne _ (by decide)
  have hSN : reasonSelfPrompt nm ≠ reasonNoBlocks := hspne _ (by decide)
  have hES : reasonEmpty ≠ reasonSelfPrompt nm := hSE.symm
  have hTS : reasonThinking ≠ reasonSelfPrompt nm := hST.symm
  have hNS : reasonNoBlocks ≠ reasonSelfPrompt nm := hSN.symm
  by_cases hraw : raw = []
  · subst hraw
    simp [parseAndValidateResponse, isOkE, hET, hEN, hES]
  · simp only [parseAndValidateResponse, if_neg hraw, thinkingMissingOrEmpty,
      selfPromptMissingOrEmpty]
    cases hth : searchG thinkingPat raw with
    | none =>
      simp [hraw, isOkE, hTE, hTN, hTS]
    | some g =>
      dsimp only
      by_cases hg : pyStrip g = []
      · simp [hg, hraw, isOkE, hTE, hTN, hTS]
      · simp only [if_neg hg]
        cases hsp : searchG (selfPromptContentPat nm) raw with
        | none =>
          simp [hg, hraw, isOkE, hSE, hST, hSN]
        | some g2 =>
          dsimp only
          by_cases hg2 : pyStrip g2 = []
          · simp [hg, hg2, hraw, isOkE, hSE, hST, hSN]
          · simp only [if_neg hg2]
            by_cases hsan : sanitize nm raw = []
            · simp [hg, hg2, hsan, hraw, isOkE, hNE, hNT, hNS]
            · simp [hg, hg2, hsan, hraw, isOkE]

/-- Counterexample for C4 as stated: this raw output contains a
non-empty thinking block and a non-empty self-prompt block, is not
empty, and block extraction succeeds, yet validation fails (reporting
the thinking reason), because the first thinking match has a blank
body. -/
theorem C4_counterexample :
    existsNonEmptyThinking rawC4 = true ∧
      existsNonEmptySelfPrompt ("Agent".data) rawC4 = true ∧
      rawC4 ≠ [] ∧ sanitize ("Agent".data) rawC4 ≠ [] ∧
      parseAndValidateResponse ("Agent".data) rawC4 = .error reasonThinking :=
  ⟨by decide, by decide, by decide, by decide, by decide⟩

/-! ## Claim C1: early abort when the generation service is not ready -/

/-- C1 (amended): for every engine state in which the generation service
is not ready (no LLM handler or invalid API key), execute_turn aborts
early reporting an error event and clears any pending input: the queue
of pending user messages after the aborted turn is empty (with a
user-input-processed event reported when messages were pending), and no
other turn work happens — self-prompts, files and memory are unchanged. -/
theorem C1_abort_clears_pending (cfg : Config) (gen : Nat → List Char)
    (sums : List (List Char)) (now : ℚ) (st : EngineState)
    (hready : llmReady st = false) :
    (executeTurn cfg gen sums now st).pendingUserMessages = [] ∧
      GuiEvent.errorEvt apiKeyErrorMsg ∈ (executeTurn cfg gen sums now st).outbox ∧
      (executeTurn cfg gen sums now st).currentSelfPrompts =
        st.currentSelfPrompts ∧
      (executeTurn cfg gen sums now st).files = st.files ∧
      (executeTurn cfg gen sums now st).memory = st.memory ∧
      (st.pendingUserMessages ≠ [] →
        GuiEvent.userInputProcessed ∈ (executeTurn cfg gen sums now st).outbox) := by
  have hready' : llmReady (if st.forceNextTurn then
      { st with forceNextTurn := false } else st) = false := by
    by_cases hf : st.forceNextTurn
    · rw [if_pos hf]; exact hready
    · rw [if_neg hf]; exact hready
  simp only [executeTurn]
  rw [hready']
  by_cases hf : st.forceNextTurn <;> by_cases hp : st.pendingUserMessages = [] <;>
    simp [abortTurn, hf, hp, List.mem_append]

/-- Counterexample for C1 as stated: with an invalid API key and one
pending user message, the queue after the aborted turn is empty, not
equal to the queue before it. -/
theorem C1_counterexample :
    (executeTurn cfg0 genEmpty [] 0
        { st0 with llmHandler := some { apiKeyIsValid := false },
                   pendingUserMessages := [("hi".data)] }).pendingUserMessages = [] ∧
      ({ st0 with llmHandler := some { apiKeyIsValid := false },
                  pendingUserMessages := [("hi".data)] } :
        EngineState).pendingUserMessages ≠ [] := by
  exact ⟨by decide, by decide⟩

/-- Witness for C1 (amended) at a concrete not-ready state with pending
input. -/
theorem C1_witness :
    (llmReady { st0 with llmHandler := none, pendingUserMessages := [("hello".data)] } = false) ∧
      ((executeTurn cfg0 genEmpty [] 0
          { st0 with llmHandler := none, pendingUserMessages := [("hello".data)] }).pendingUserMessages = [] ∧
        GuiEvent.errorEvt apiKeyErrorMsg ∈
          (executeTurn cfg0 genEmpty [] 0
            { st0 with llmHandler := none, pendingUserMessages := [("hello".data)] }).outbox ∧
        (executeTurn cfg0 genEmpty [] 0
            { st0 with llmHandler := none, pendingUserMessages := [("hello".data)] }).currentSelfPrompts =
          ({ st0 with llmHandler := none, pendingUserMessages := [("hello".data)] } :
              EngineState).currentSelfPrompts ∧
        (executeTurn cfg0 genEmpty [] 0
            { st0 with llmHandler := none, pendingUserMessages := [("hello".data)] }).files =
          ({ st0 with llmHandler := none, pendingUserMessages := [("hello".data)] } : EngineState).files ∧
        (executeTurn cfg0 genEmpty [] 0
            { st0 with llmHandler := none, pendingUserMessages := [("hello".data)] }).memory =
          ({ st0 with llmHandler := none, pendingUserMessages := [("hello".data)] } : EngineState).memory ∧
        (({ st0 with llmHandler := none, pendingUserMessages := [("hello".data)] } :
              EngineState).pendingUserMessages ≠ [] →
          GuiEvent.userInputProcessed ∈
            (executeTurn cfg0 genEmpty [] 0
              { st0 with llmHandler := none, pendingUserMessages := [("hello".data)] }).outbox)) :=
  ⟨by decide, C1_abort_clears_pending cfg0 genEmpty [] 0 _ (by decide)⟩

/-! ## Claim C2: a fully failed retry loop leaves the input untouched -/

theorem runAttempts_fail (cfg : Config) (gen : Nat → List Char)
    (userMsg : Option (List Char)) :
    ∀ (l : List Nat) (st : EngineState),
      (∀ i ∈ l,
        isOkE (parseAndValidateResponse cfg.agentName (pyStrip (gen i))) = false) →
      runAttempts cfg gen userMsg l st =
        ({ st with outbox := st.outbox ++ l.map (fun _ => GuiEvent.updatePersistentStats) },
          none) := by
  intro l
  induction l with
  | nil =>
    intro st _
    simp only [runAttempts, List.map_nil, List.append_nil]
  | cons i l ih =>
    intro st hfail
    simp only [runAttempts]
    cases hcase : parseAndValidateResponse cfg.agentName (pyStrip (gen i)) with
    | ok s =>
      exfalso
      have := hfail i (List.mem_cons_self _ _)
      rw [hcase] at this
      simp [isOkE] at this
    | error e =>
      rw [ih _ (fun j hj => hfail j (List.mem_cons_of_mem _ hj))]
      simp only [List.map_cons, List.append_assoc, List.singleton_append]

theorem statusStep_pum (s : EngineState) :
    (statusStep s).pendingUserMessages = s.pendingUserMessages := by
  unfold statusStep; split <;> rfl

theorem statusStep_csp (s : EngineState) :
    (statusStep s).currentSelfPrompts = s.currentSelfPrompts := by
  unfold statusStep; split <;> rfl

theorem statusStep_fcnt (s : EngineState) :
    (statusStep s).fileContentForNextTurn = s.fileContentForNextTurn := by
  unfold statusStep; split <;> rfl

theorem statusStep_pfr (s : EngineState) :
    (statusStep s).pendingFileRead = s.pendingFileRead := by
  unfold statusStep; split <;> rfl

theorem timeStep_pum (now : ℚ) (b : Bool) (s : EngineState) :
    (timeStep now b s).pendingUserMessages = s.pendingUserMessages := by
  unfold timeStep; split <;> rfl

theorem timeStep_csp (now : ℚ) (b : Bool) (s : EngineState) :
    (timeStep now b s).currentSelfPrompts = s.currentSelfPrompts := by
  unfold timeStep; split <;> rfl

theorem timeStep_fcnt (now : ℚ) (b : Bool) (s : EngineState) :
    (timeStep now b s).fileContentForNextTurn = s.fileContentForNextTurn := by
  unfold timeStep; split <;> rfl

theorem timeStep_outbox (now : ℚ) (b : Bool) (s : EngineState) :
    (timeStep now b s).outbox = s.outbox := by
  unfold timeStep; split <;> rfl

theorem postGenStep_none (cfg : Config) (sums : List (List Char))
    (s : EngineState) :
    postGenStep cfg sums (s, none) =
      { s with outbox := s.outbox ++ [GuiEvent.logGenerationFailure] } := rfl

theorem inputDoneStep_none (u : Option (List Char)) (s : EngineState) :
    inputDoneStep u none s = s := by
  cases u <;> rfl

theorem fileReadStep_none (cfg : Config) (s : EngineState)
    (h : s.pendingFileRead = none) : fileReadStep cfg s = s := by
  unfold fileReadStep; rw [h]

/-- C2: when the generation service is ready but all MAX_RETRIES
generation attempts fail validation, execute_turn leaves the pending
user messages, the current self-prompts and the accumulated
file-feedback buffer unchanged (and reports the generation failure), so
the identical input is presented on the next cycle.  `pendingFileRead`
is `none` at the start of every turn, since each turn consumes it. -/
theorem C2_failed_turn_frame (cfg : Config) (gen : Nat → List Char)
    (sums : List (List Char)) (now : ℚ) (st : EngineState)
    (hready : llmReady st = true)
    (hfail : ∀ i < MAXRETRIES,
      isOkE (parseAndValidateResponse cfg.agentName (pyStrip (gen i))) = false)
    (hpfr : st.pendingFileRead = none) :
    (executeTurn cfg gen sums now st).pendingUserMessages =
        st.pendingUserMessages ∧
      (executeTurn cfg gen sums now st).currentSelfPrompts =
        st.currentSelfPrompts ∧
      (executeTurn cfg gen sums now st).fileContentForNextTurn =
        st.fileContentForNextTurn ∧
      GuiEvent.logGenerationFailure ∈ (executeTurn cfg gen sums now st).outbox := by
  have hfail' : ∀ i ∈ List.range MAXRETRIES,
      isOkE (parseAndValidateResponse cfg.agentName (pyStrip (gen i))) = false :=
    fun i hi => hfail i (List.mem_range.mp hi)
  have hready' : llmReady (if st.forceNextTurn then
      { st with forceNextTurn := false } else st) = true := by
    by_cases hf : st.forceNextTurn
    · rw [if_pos hf]; exact hready
    · rw [if_neg hf]; exact hready
  simp only [executeTurn]
  rw [hready']
  by_cases hf : st.forceNextTurn <;>
    simp only [hf, Bool.not_true, Bool.false_eq_true, if_false, reduceIte,
      mainTurn] <;>
    rw [runAttempts_fail cfg gen _ _ _ hfail'] <;>
    simp [postGenStep_none, inputDoneStep_none, fileReadStep_none,
      statusStep_pfr, statusStep_pum, statusStep_csp, statusStep_fcnt,
      timeStep_pum, timeStep_csp, timeStep_fcnt, timeStep_outbox,
      hpfr, List.mem_append]

/-- Witness for C2: three empty generations against a ready engine with
one pending message. -/
theorem C2_witness :
    (llmReady { st0 with pendingUserMessages := [("hi".data)] } = true ∧
      (∀ i < MAXRETRIES,
        isOkE (parseAndValidateResponse cfg0.agentName
          (pyStrip (genEmpty i))) = false) ∧
      ({ st0 with pendingUserMessages := [("hi".data)] } :
        EngineState).pendingFileRead = none) ∧
      ((executeTurn cfg0 genEmpty [] 0
          { st0 with pendingUserMessages := [("hi".data)] }).pendingUserMessages =
        ({ st0 with pendingUserMessages := [("hi".data)] } :
          EngineState).pendingUserMessages ∧
        (executeTurn cfg0 genEmpty [] 0
            { st0 with pendingUserMessages := [("hi".data)] }).currentSelfPrompts =
          ({ st0 with pendingUserMessages := [("hi".data)] } :
            EngineState).currentSelfPrompts ∧
        (executeTurn cfg0 genEmpty [] 0
            { st0 with pendingUserMessages := [("hi".data)] }).fileContentForNextTurn =
          ({ st0 with pendingUserMessages := [("hi".data)] } :
            EngineState).fileContentForNextTurn ∧
        GuiEvent.logGenerationFailure ∈
          (executeTurn cfg0 genEmpty [] 0
            { st0 with pendingUserMessages := [("hi".data)] }).outbox) :=
  ⟨⟨by decide, by decide, by decide⟩,
    C2_failed_turn_frame cfg0 genEmpty [] 0 _ (by decide) (by decide) (by decide)⟩

/-- Witness for C10: a sanitized text holding one self-prompt block. -/
theorem C10_witness :
    (findAll (allSelfPromptsPat cfg0.agentName)
        (("\x7bthinking: t\x7d\x7bself-prompt-from-Agent: next\x7d".data)) ≠ []) ∧
      (processValidResponse cfg0 st0
          (("\x7bthinking: t\x7d\x7bself-prompt-from-Agent: next\x7d".data))).1.currentSelfPrompts =
        findAll (allSelfPromptsPat cfg0.agentName)
          (("\x7bthinking: t\x7d\x7bself-prompt-from-Agent: next\x7d".data)) :=
  ⟨by decide, (C10_self_prompts cfg0 st0 _).2.1 (by decide)⟩

end SmolAgent
